import Mathlib

/-!
Verification development for the reddit-scraper repository.

Shallow embedding of the Python source under src/reddit_scraper/:
  utils.py            -> RetryPolicy (retry)
  reddit_scraper.py   -> validate_reddit_url, get_posts (DiscoveryLoop /
                         FetchDispatcher), get_post (DetailFetcher)
  comments.py         -> CommentScraper (scrape_comment_content, get,
                         scrape_comments)
  media.py            -> MediaScraper (get_media_urls, get_gallery_urls,
                         download_media)

Python values are modelled as follows: strings are Lean String (lists of
characters), `None`-able values are Option, sets of identifiers are
duplicate-free lists grown by membership-checked insertion, exceptions are
the error branch of Except, and the file system is a log of performed
operations.  Selenium elements are records carrying exactly the attributes
the scraped code reads from them.
-/

set_option autoImplicit false

namespace RedditScraper

/-- Python exceptions that can escape the modelled functions. -/
inductive PyErr where
  /-- selenium NoSuchElementException from find_element. -/
  | noSuchElement
  /-- AttributeError, e.g. calling a method on None. -/
  | attributeError
  /-- TypeError, e.g. unpacking None or adding None to a string. -/
  | typeError
  /-- UnboundLocalError, e.g. reading a local variable never assigned. -/
  | unboundLocal
  deriving DecidableEq

/-! ## RetryPolicy: utils.retry

`retry(retries, retry_sleep_sec)` wraps an operation.  The wrapper calls the
operation up to `retries` times; after every failed call it sleeps once and
logs; when all calls have failed it raises a fresh
`Exception(f"Exceeded max retry num: {retries} failed")`.  The raise sits
after the for-loop, outside the except-block, so the last operation failure
is not re-raised and is not attached to the new exception.

The operation is modelled as a function from the 0-based attempt number to
an `Except E A` outcome.  The escaping error channel distinguishes an
exception freshly raised by the wrapper from a re-raised operation failure,
so that the question "does the wrapper re-raise the final failure?" is
expressible. -/

/-- Error escaping a retry-wrapped call: either an exception the wrapper
itself raised (carrying its message), or a re-raised operation failure. -/
inductive RetryEscape (E : Type) where
  /-- `raise Exception(msg)` performed by the wrapper. -/
  | raised (msg : String)
  /-- the operation's own exception re-raised (the source never does this). -/
  | reraised (e : E)
  deriving DecidableEq

/-- Message of the exception raised after retry exhaustion
(`f"Exceeded max retry num: {retries} failed"`). -/
def exhaustMsg (retries : Nat) : String :=
  "Exceeded max retry num: " ++ toString retries ++ " failed"

/-- One run of the wrapper body of utils.retry.  Arguments after `op`:
remaining loop iterations, 0-based number of the next attempt, sleeps
performed so far, operation calls performed so far.  Returns the outcome
together with the total sleep count and total call count. -/
def retryGo {E A : Type} (retries : Nat) (op : Nat → Except E A) :
    Nat → Nat → Nat → Nat → Except (RetryEscape E) A × Nat × Nat
  | 0, _, sleeps, calls => (.error (.raised (exhaustMsg retries)), sleeps, calls)
  | remaining + 1, attempt, sleeps, calls =>
    match op attempt with
    | .ok a => (.ok a, sleeps, calls + 1)
    | .error _ => retryGo retries op remaining (attempt + 1) (sleeps + 1) (calls + 1)

/-- utils.retry: run the wrapped operation with the given attempt budget.
Result, number of sleeps, number of operation invocations. -/
def retryRun {E A : Type} (retries : Nat) (op : Nat → Except E A) :
    Except (RetryEscape E) A × Nat × Nat :=
  retryGo retries op retries 0 0 0

/-! ## FetchDispatcher: executor.map inside get_posts

`scraped_posts.extend(executor.map(worker, posts_to_scrape))` submits one
task per stub to a bounded pool and reads the results back in submission
order.  The pool is modelled by a completion schedule: a list of slot
indices in the order the workers happen to finish.  Each completion writes
the result of input `k` into output slot `k`; the dispatcher finally reads
the slots in input order.  The worker-limit only restricts which schedules
can occur, never the slot a result is written to, so the model quantifies
over arbitrary schedules. -/

/-- Execute the completion schedule: every completion of task `k` stores
`f (stubs[k])` into slot `k` of the result buffer. -/
def runSchedFrom {A B : Type} (f : A → B) (stubs : List A) :
    List Nat → List (Option B) → List (Option B)
  | [], slots => slots
  | k :: ks, slots =>
    runSchedFrom f stubs ks
      (match stubs[k]? with
        | some s => slots.set k (some (f s))
        | none => slots)

/-- Run the completion schedule on an initially empty result buffer with
one slot per submitted stub. -/
def runSched {A B : Type} (f : A → B) (stubs : List A) (sched : List Nat) :
    List (Option B) :=
  runSchedFrom f stubs sched (List.replicate stubs.length none)

/-- The dispatcher: run all completions, then read the slots in input
order. -/
def dispatch {A B : Type} (f : A → B) (stubs : List A) (sched : List Nat) :
    List (Option B) :=
  runSched f stubs sched

/-! ## DiscoveryLoop: reddit_scraper.get_posts

`get_posts` keeps a set `post_ids` and the list `scraped_posts`.  Each
iteration re-reads all rendered `shreddit-post` elements, slices off the
first `len(scraped_posts)` of them, and for every remaining element with
`limit is None or len(post_ids) < limit` adds the element id to `post_ids`
and the element itself to `posts_to_scrape` — there is no membership check
before the append, the set add is simply a no-op for duplicates.  The batch
is dispatched and appended to `scraped_posts`; the loop stops when
`limit is not None and len(post_ids) == limit`, or when `scroll_page()`
reports no growth.

The page surface is modelled as the list of successive element-list
renders; `scroll_page` returning False corresponds to reaching the final
render.  The `WebDriverWait` presence condition guarantees a non-empty
element list, so an empty render models the wait timing out, which the
generic except-clause turns into loop termination. -/

/-- A rendered `shreddit-post` element; the discovery loop only reads its
`id` attribute. -/
structure PostNode where
  id : String
  deriving DecidableEq

/-- `post_ids.add(id)`: sets are modelled as duplicate-free lists with
membership-checked insertion. -/
def insertId (ids : List String) (i : String) : List String :=
  if i ∈ ids then ids else ids ++ [i]

/-- `limit is None or len(post_ids) < limit`. -/
def underQuota (limit : Option Nat) (ids : List String) : Bool :=
  match limit with
  | none => true
  | some l => ids.length < l

/-- `limit is not None and len(post_ids) == limit`. -/
def quotaReached (limit : Option Nat) (ids : List String) : Bool :=
  match limit with
  | none => false
  | some l => ids.length == l

/-- The for-loop over the sliced elements: build this iteration's
`posts_to_scrape` batch while updating `post_ids`. -/
def collectBatch (limit : Option Nat) :
    List String → List PostNode → List String × List PostNode
  | ids, [] => (ids, [])
  | ids, n :: rest =>
    if underQuota limit ids then
      let step := collectBatch limit (insertId ids n.id) rest
      (step.1, n :: step.2)
    else
      collectBatch limit ids rest

/-- The while-loop of get_posts over successive renders.  `count` is
`len(scraped_posts)`; each iteration slices the current render at `count`,
collects and dispatches a batch, then either stops on quota, stops because
the page no longer grows (final render), or continues with the next
render.  An empty render models the element wait timing out (the caught
exception ends the loop). -/
def getPostsGo (limit : Option Nat) :
    List String → Nat → List (List PostNode) → List (List PostNode)
  | _, _, [] => []
  | ids, count, r :: rest =>
    if r = [] then []
    else
      if quotaReached limit (collectBatch limit ids (r.drop count)).1 then
        [(collectBatch limit ids (r.drop count)).2]
      else
        (collectBatch limit ids (r.drop count)).2 ::
          getPostsGo limit (collectBatch limit ids (r.drop count)).1
            (count + (collectBatch limit ids (r.drop count)).2.length) rest

/-- get_posts restricted to discovery: the sequence of dispatched batches
(each batch is later mapped through get_post by the executor; see
`dispatch`). -/
def get_posts (limit : Option Nat) (renders : List (List PostNode)) :
    List (List PostNode) :=
  getPostsGo limit [] 0 renders

/-- The final render: the rendered list at the moment scroll_page first
reports no growth. -/
def lastRender : List (List PostNode) → List PostNode
  | [] => []
  | [r] => r
  | _ :: r2 :: rest => lastRender (r2 :: rest)

/-- Total number of stubs the claim predicts: `min(Q, |D|)`, all of `D`
when the quota is unset. -/
def Tot (limit : Option Nat) (d : Nat) : Nat :=
  match limit with
  | none => d
  | some l => min l d

/-- Concrete node used in the C4 counterexample. -/
def nodeA : PostNode := ⟨"a"⟩

/-- Concrete nodes used in the C1 witness. -/
def nodeP1 : PostNode := ⟨"p1"⟩

/-- Second witness node. -/
def nodeP2 : PostNode := ⟨"p2"⟩

/-- Third witness node. -/
def nodeP3 : PostNode := ⟨"p3"⟩

/-! ## CommentExpander: comments.CommentScraper

`scrape_comment_content` reads the attributes of one `shreddit-comment`
element and its text; the text path branches on the `collapsed` attribute:
when `collapsed == "false"` it takes `.text` of the element with id
`-post-rtjson-content`, otherwise `.strip()` of the `innerText` attribute
of `div[slot='comment']`.  `get` scrapes one top-level comment with
seen-set bookkeeping; when a "more replies" affordance is present the
function falls off its end, returning Python `None`, which the caller
unpacks immediately — a TypeError.  `scrape_comments` loops over renders of
the comment tree, slicing each render at `len(all_comments)` and processing
only depth-"0" elements, and clamps the quota to the `totalcomments`
attribute of the tree. -/

/-- ASCII whitespace as recognised by Python str.strip() (the Unicode
whitespace the model does not exercise is omitted). -/
def pyIsSpace (c : Char) : Bool :=
  c = ' ' ∨ c = '\t' ∨ c = '\n' ∨ c = '\r' ∨ c = '\x0b' ∨ c = '\x0c'

/-- Python str.strip(): drop leading and trailing whitespace. -/
def pyStrip (s : String) : String :=
  ⟨((s.toList.dropWhile pyIsSpace).reverse.dropWhile pyIsSpace).reverse⟩

/-- The string literal "false" compared against the collapsed attribute. -/
def strFalse : String := "false"

/-- The string literal "0" compared against the depth attribute. -/
def strZero : String := "0"

/-- A rendered `shreddit-comment` element: the attributes the scraper
reads, the two text sources, and whether a
`faceplate-partial[loading='action']` ("more replies") child exists.
`rtjsonText` is the `.text` of the element with id `-post-rtjson-content`
(`none` models the element being absent, a NoSuchElementException);
`rawInnerText` is the `innerText` attribute of `div[slot='comment']`
(`none` models the div being absent or the attribute being None, either of
which raises). -/
structure CommentNode where
  thingid : Option String
  author : Option String
  depth : Option String
  permalink : Option String
  score : Option String
  postid : Option String
  collapsed : Option String
  rtjsonText : Option String
  rawInnerText : Option String
  hasMoreButton : Bool
  deriving DecidableEq

/-- The dict scrape_comment_content builds for one comment. -/
structure CommentContent where
  author : Option String
  id : Option String
  depth : Option String
  permalink : Option String
  score : Option String
  postid : Option String
  content : Option String
  deriving DecidableEq

namespace CommentScraper

/-- The dict literal returned at the end of scrape_comment_content
(`content if content else None`). -/
def mkCommentContent (c : CommentNode) (content : String) : CommentContent :=
  { author := c.author, id := c.thingid, depth := c.depth,
    permalink := c.permalink, score := c.score, postid := c.postid,
    content := if content.isEmpty then none else some content }

/-- comments.CommentScraper.scrape_comment_content. -/
def scrape_comment_content (c : CommentNode) : Except PyErr CommentContent :=
  if c.collapsed = some strFalse then
    match c.rtjsonText with
    | none => Except.error PyErr.noSuchElement
    | some t => Except.ok (mkCommentContent c t)
  else
    match c.rawInnerText with
    | none => Except.error PyErr.noSuchElement
    | some raw => Except.ok (mkCommentContent c (pyStrip raw))

/-- comments.CommentScraper.get: scrape one parent comment.  Returns the
scraped entries, the `_continue` flag and the updated seen set.  When a
"more replies" button is present the source function ends without a return
statement; Python yields `None` and the sole caller unpacks it at once, so
that path is modelled as the TypeError the unpacking raises. -/
def get (ids : List (Option String)) (c : CommentNode) (limit : Nat) :
    Except PyErr
      (List (Option String × CommentContent) × Bool × List (Option String)) :=
  match scrape_comment_content c with
  | Except.error e => Except.error e
  | Except.ok content =>
    if c.thingid ∈ ids then Except.ok ([], true, ids)
    else
      if (ids ++ [c.thingid]).length = limit then
        Except.ok ([(c.thingid, content)], false, ids ++ [c.thingid])
      else
        if c.hasMoreButton then Except.error PyErr.typeError
        else Except.ok ([(c.thingid, content)], true, ids ++ [c.thingid])

/-- The for-loop body of scrape_comments over one render slice.  Skips
non-top-level comments, applies `get` to the rest, merges results
(`all_comments.update` appends only fresh keys here since `get` returns an
entry only for unseen identifiers) and reports whether the quota return
fired (`_continue` false). -/
def processSlice (limit : Nat) :
    List CommentNode → List (Option String × CommentContent) →
    List (Option String) →
    Except PyErr
      (List (Option String × CommentContent) × List (Option String) × Bool)
  | [], all, ids => Except.ok (all, ids, false)
  | c :: rest, all, ids =>
    if c.depth ≠ some strZero then processSlice limit rest all ids
    else
      match get ids c limit with
      | Except.error e => Except.error e
      | Except.ok (sc, cont, ids2) =>
        if cont then processSlice limit rest (all ++ sc) ids2
        else Except.ok (all ++ sc, ids2, true)

/-- The while-loop of scrape_comments over the successive renders of the
comment tree; each iteration slices the current render at
`len(all_comments)` and stops early when the quota return fires, otherwise
scrolls (the final render is where scroll_page reports no growth). -/
def scrapeGo (limit : Nat) :
    List (List CommentNode) →
    List (Option String × CommentContent) → List (Option String) →
    Except PyErr (List (Option String × CommentContent))
  | [], all, _ => Except.ok all
  | r :: rest, all, ids =>
    match processSlice limit (r.drop all.length) all ids with
    | Except.error e => Except.error e
    | Except.ok (all2, ids2, early) =>
      if early then Except.ok all2
      else
        match rest with
        | [] => Except.ok all2
        | r2 :: rest2 => scrapeGo limit (r2 :: rest2) all2 ids2

end CommentScraper

/-- The comment tree surface: the `totalcomments` attribute of
`shreddit-comment-tree` and the successive renders of its
`shreddit-comment` elements. -/
structure CommentTreeSurface where
  totalcomments : Nat
  renders : List (List CommentNode)

/-- The page surface seen by scrape_comments: `none` models the comment
tree never appearing (TimeoutException, caught: the post has no
comments). -/
structure CommentSurface where
  tree : Option CommentTreeSurface

namespace CommentScraper

/-- comments.CommentScraper.scrape_comments: clamp the quota to
`totalcomments`, then run the scroll loop with a fresh seen set. -/
def scrape_comments (s : CommentSurface) (comment_limit : Nat) :
    Except PyErr (List (Option String × CommentContent)) :=
  match s.tree with
  | none => Except.ok []
  | some ts =>
    scrapeGo
      (if ts.totalcomments < comment_limit then ts.totalcomments
       else comment_limit)
      ts.renders [] []

end CommentScraper

/-- A plain fully-present top-level comment used in concrete runs: not
collapsed, no replies, with agreeing text sources. -/
def plainCommentNode (i : String) : CommentNode :=
  { thingid := some i, author := some ("u"), depth := some strZero,
    permalink := some ("/c"), score := some ("1"), postid := some ("t3"),
    collapsed := some strFalse, rtjsonText := some ("hello"),
    rawInnerText := some (" hello "), hasMoreButton := false }

/-- The entry scrape_comments records for `plainCommentNode i`. -/
def plainEntry (i : String) : Option String × CommentContent :=
  (some i,
    { author := some ("u"), id := some i, depth := some strZero,
      permalink := some ("/c"), score := some ("1"), postid := some ("t3"),
      content := some ("hello") })

/-- A single-render surface of plain comments, one per name, whose
totalcomments attribute is accurate. -/
def plainSurface (names : List String) : CommentSurface :=
  ⟨some ⟨names.length, [names.map plainCommentNode]⟩⟩

/-- Node for the C6 counterexample whose two text sources differ,
reporting collapsed="false". -/
def c6NodeExpanded : CommentNode :=
  { thingid := some ("t1"), author := some ("u"), depth := some strZero,
    permalink := none, score := none, postid := none,
    collapsed := some strFalse, rtjsonText := some ("rich text"),
    rawInnerText := some ("raw text"), hasMoreButton := false }

/-! ## The regular expressions of media.py

media.py compiles three patterns:
  gallery_pattern  `^https?://(www\.)?reddit\.com/gallery/[A-Za-z0-9_]+$`
                   with IGNORECASE,
  media_pattern    `^https?://.*\.(png|jpg|jpeg|gif|bmp|webp)(\?.*)?$`
                   with IGNORECASE,
  name_pattern     `.*-(.*?)\.`  (no flags),
all used through `.match` (anchored at the start).  The embeddings below
mirror Python's semantics: `$` also matches just before one final newline,
`.` matches any character except newline, alternation and greedy/lazy
repetition have pure existential backtracking semantics, and IGNORECASE is
modelled by ASCII case folding (the exotic Unicode foldings of Python's
IGNORECASE are outside the inputs this program meets). -/

/-- ASCII lower-casing for the IGNORECASE patterns. -/
def asciiLower (c : Char) : Char :=
  if 'A' ≤ c ∧ c ≤ 'Z' then Char.ofNat (c.toNat + 32) else c

/-- The character class `[A-Za-z0-9_]`. -/
def wordChar (c : Char) : Bool :=
  ('A' ≤ c ∧ c ≤ 'Z') ∨ ('a' ≤ c ∧ c ≤ 'z') ∨ ('0' ≤ c ∧ c ≤ '9') ∨ c = '_'

/-- Consume an exact literal prefix, returning the remainder. -/
def stripLit (p s : List Char) : Option (List Char) :=
  match p, s with
  | [], rest => some rest
  | _, [] => none
  | c :: p2, d :: s2 => if c = d then stripLit p2 s2 else none

/-- Remove a single final newline (the position where `$` may match). -/
def dropTrailingNewline (s : List Char) : List Char :=
  match s.reverse with
  | '\n' :: t => t.reverse
  | _ => s

/-- Core of gallery_pattern on a lower-cased, `$`-adjusted string:
`http`, optional `s`, `://`, optional `www.`, `reddit.com/gallery/`, then
one or more word characters to the end.  The two optional groups are
deterministic here because their next literal differs from the
alternative continuation. -/
def galleryCore (s : List Char) : Bool :=
  match stripLit ("http").toList s with
  | none => false
  | some s1 =>
    match stripLit ("://").toList
        (match s1 with
          | 's' :: t => t
          | _ => s1) with
    | none => false
    | some s3 =>
      match stripLit ("reddit.com/gallery/").toList
          (match stripLit ("www.").toList s3 with
            | some t => t
            | none => s3) with
      | none => false
      | some s5 => s5 ≠ [] ∧ s5.all wordChar

/-- media.MediaScraper.gallery_pattern.match(s) succeeds. -/
def galleryMatches (s : String) : Bool :=
  galleryCore (dropTrailingNewline (s.toList.map asciiLower))

/-- The alternation `png|jpg|jpeg|gif|bmp|webp`. -/
def mediaExts : List (List Char) :=
  [("png").toList, ("jpg").toList, ("jpeg").toList, ("gif").toList,
   ("bmp").toList, ("webp").toList]

/-- After a candidate dot: some extension followed by the end or by `?`
(the optional query group `(\?.*)?$` swallows the rest). -/
def extTail (t : List Char) : Bool :=
  mediaExts.any (fun e =>
    match stripLit e t with
    | none => false
    | some r => r = [] ∨ r.head? = some '?')

/-- Core of media_pattern on a lower-cased, `$`-adjusted, newline-free
string: scheme, then some position where `.` is followed by an extension
and the optional query; the `.*` before the dot is arbitrary. -/
def mediaCore (s : List Char) : Bool :=
  match stripLit ("http").toList s with
  | none => false
  | some s1 =>
    match stripLit ("://").toList
        (match s1 with
          | 's' :: t => t
          | _ => s1) with
    | none => false
    | some s3 =>
      s3.tails.any (fun t =>
        match t with
        | '.' :: u => extTail u
        | _ => false)

/-- media.MediaScraper.media_pattern.match(s) succeeds.  The dots of the
pattern cannot match a newline, so apart from one final newline (matched
by `$`) the string must be newline-free. -/
def mediaMatches (s : String) : Bool :=
  mediaCore (dropTrailingNewline (s.toList.map asciiLower)) &&
    (dropTrailingNewline (s.toList.map asciiLower)).all (fun c => c ≠ '\n')

/-- The chars before the first dot (the lazy group `(.*?)\.`); none when no
dot is reachable without crossing a newline. -/
def firstDotSeg (l : List Char) : Option (List Char) :=
  match l with
  | [] => none
  | c :: t =>
    if c = '.' then some []
    else if c = '\n' then none
    else (firstDotSeg t).map (fun g => c :: g)

/-- Scan for the last usable dash (`.*-` is greedy): prefer a dash further
right whose suffix still contains a dot; stop at a newline since `.` never
matches one. -/
def nameScan (l : List Char) : Option (List Char) :=
  match l with
  | [] => none
  | c :: t =>
    if c = '\n' then none
    else
      match nameScan t with
      | some g => some g
      | none => if c = '-' then firstDotSeg t else none

/-- media.MediaScraper.name_pattern.match(s) and its `.group(1)`; none
models the match being `None` (so `.group(1)` raises AttributeError). -/
def nameExtract (s : String) : Option String :=
  (nameScan s.toList).map (fun l => ⟨l⟩)

/-! ## MediaResolver: media.MediaScraper

`get_media_urls` classifies the content reference; `get_gallery_urls`
walks the gallery carousel (find_element raising when it is absent —
the `if not gallery_carousel` guard in the source is dead code since
find_element never returns a falsy value); `download_media` creates
`download_media_dir/id`, fetches every resolved URL (the `fetch` helper's
retry decorator is modelled separately by `retryRun`; here only the final
per-URL outcome matters), saves each successful response under a name with
the extension guessed from the content type, skips per-asset failures, and
returns the saved paths, or None when nothing was resolved or nothing was
saved.  Filesystem effects are returned as an operation log. -/

/-- An `img.absolute` element of the gallery carousel. -/
structure GalleryImg where
  src : Option String
  deriving DecidableEq

/-- A streamed requests response: the scraped code only reads the declared
content type. -/
structure MediaResponse where
  contentType : String
  deriving DecidableEq

/-- The collaborators of MediaScraper: the carousel element (none models
NoSuchElementException) and the final outcome of the retry-wrapped fetch
per URL (none models retry exhaustion, whose exception the per-URL try
catches). -/
structure MediaEnv where
  carousel : Option (List GalleryImg)
  fetchResult : String → Option MediaResponse

/-- The fragment of the mimetypes.guess_extension table the program meets;
none for an unknown content type (the source then evaluates `f_name + None`
and raises TypeError inside save). -/
def guessExt (ctype : String) : Option String :=
  if ctype = "image/jpeg" then some (".jpg")
  else if ctype = "image/png" then some (".png")
  else if ctype = "image/gif" then some (".gif")
  else if ctype = "image/webp" then some (".webp")
  else if ctype = "image/bmp" then some (".bmp")
  else none

/-- A filesystem effect performed by download_media. -/
inductive FsOp where
  | mkdir (path : String)
  | writeFile (path : String)
  deriving DecidableEq

namespace MediaScraper

/-- The loop of get_gallery_urls over the carousel images: keep sources
matching media_pattern, naming each via name_pattern (whose failure is the
AttributeError of `.group(1)` on None). -/
def galleryUrlsGo : List GalleryImg → List (String × String) →
    Except PyErr (List (String × String))
  | [], acc => Except.ok acc
  | img :: rest, acc =>
    match img.src with
    | none => galleryUrlsGo rest acc
    | some src =>
      if mediaMatches src then
        match nameExtract src with
        | none => Except.error PyErr.attributeError
        | some name => galleryUrlsGo rest (acc ++ [(src, name)])
      else galleryUrlsGo rest acc

/-- media.MediaScraper.get_gallery_urls. -/
def get_gallery_urls (env : MediaEnv) :
    Except PyErr (Option (List (String × String))) :=
  match env.carousel with
  | none => Except.error PyErr.noSuchElement
  | some imgs =>
    match galleryUrlsGo imgs [] with
    | Except.error e => Except.error e
    | Except.ok urls => Except.ok (some urls)

/-- media.MediaScraper.get_media_urls. -/
def get_media_urls (env : MediaEnv) (content_href id : String) :
    Except PyErr (Option (List (String × String))) :=
  if galleryMatches content_href then get_gallery_urls env
  else if mediaMatches content_href then Except.ok (some [(content_href, id)])
  else Except.ok none

/-- media.MediaScraper.save: extension from the declared content type,
then one file write under `path/f_name + ext` (os.path.join modelled as
slash concatenation). -/
def save (res : MediaResponse) (path fname : String) :
    Except PyErr (String × FsOp) :=
  match guessExt res.contentType with
  | none => Except.error PyErr.typeError
  | some ext =>
    Except.ok (path ++ ("/") ++ fname ++ ext,
      FsOp.writeFile (path ++ ("/") ++ fname ++ ext))

/-- The per-URL loop of download_media: fetch (retry-wrapped) then save;
any exception in either step is logged and the asset skipped. -/
def downloadGo (env : MediaEnv) (path : String) :
    List (String × String) → List String → List FsOp →
    List String × List FsOp
  | [], paths, ops => (paths, ops)
  | u :: rest, paths, ops =>
    match env.fetchResult u.1 with
    | none => downloadGo env path rest paths ops
    | some res =>
      match save res path u.2 with
      | Except.error _ => downloadGo env path rest paths ops
      | Except.ok pr =>
        downloadGo env path rest (paths ++ [pr.1]) (ops ++ [pr.2])

/-- media.MediaScraper.download_media: resolve URLs, return None before
any filesystem effect when nothing was resolved, otherwise create the
per-item directory, download each asset, and return the saved paths or
None when every asset failed. -/
def download_media (env : MediaEnv)
    (content_href id download_media_dir : String) :
    Except PyErr (Option (List String) × List FsOp) :=
  match get_media_urls env content_href id with
  | Except.error e => Except.error e
  | Except.ok none => Except.ok (none, [])
  | Except.ok (some []) => Except.ok (none, [])
  | Except.ok (some (u :: us)) =>
    Except.ok
      ((if (downloadGo env (download_media_dir ++ ("/") ++ id)
            (u :: us) [] []).1.isEmpty then none
        else some (downloadGo env (download_media_dir ++ ("/") ++ id)
          (u :: us) [] []).1),
       FsOp.mkdir (download_media_dir ++ ("/") ++ id) ::
         (downloadGo env (download_media_dir ++ ("/") ++ id)
           (u :: us) [] []).2)

end MediaScraper

/-- Gallery image source used in witnesses. -/
def wSrc (n : String) : String :=
  ("https://preview.redd.it/img-") ++ n ++ (".jpg")

/-- Concrete gallery with three valid images. -/
def wImgs : List GalleryImg :=
  [⟨some (wSrc ("a"))⟩, ⟨some (wSrc ("b"))⟩, ⟨some (wSrc ("c"))⟩]

/-- Concrete media environment: the three-image carousel and a fetch that
always answers with a JPEG response. -/
def wEnv : MediaEnv :=
  ⟨some wImgs, fun _ => some ⟨("image/jpeg")⟩⟩

/-- Media environment whose every fetch fails after retries. -/
def wEnvFail : MediaEnv :=
  ⟨some wImgs, fun _ => none⟩

/-! ## DetailFetcher: reddit_scraper.get_post

The body of get_post runs inside try/except/finally.  The local `driver`
is assigned only at line 402, after `scrape_post_tag` (attribute reads on
the feed element) and after `urljoin` of the permalink; the except clause
turns any exception into the per-item failure marker `return None`, but
the finally clause then evaluates `self.quit_web_driver(driver)` — if the
exception predates the assignment, `driver` is an unbound local and the
finally clause raises UnboundLocalError, discarding the pending None and
letting the exception escape into the executor batch. -/

/-- The 11 attributes scrape_post_tag reads from a shreddit-post
element. -/
structure PostTag where
  permalink : Option String
  contentHref : Option String
  commentCount : Option String
  feedindex : Option String
  isNotBrandSafe : Option String
  createdTimestamp : Option String
  postTitle : Option String
  postType : Option String
  score : Option String
  author : Option String
  id : Option String
  deriving DecidableEq

/-- A feed element as the detail fetcher sees it: its attribute record, or
none when the element has gone stale and get_attribute raises. -/
structure FeedPostElem where
  tag : Option PostTag
  deriving DecidableEq

/-- Outcomes of the collaborators get_post drives after the driver is
bound: driver construction and navigation, then the body / comments /
media steps, each able to raise (error) — all such exceptions are caught
by get_post's except clause.  The comment and media subsystems are
embedded in full elsewhere (CommentScraper, MediaScraper); here only
their outcome at this call matters. -/
structure DetailEnv where
  buildOk : Bool
  navOk : Bool
  bodyResult : Except Unit (Option String)
  commentsResult : Except Unit (List (Option String × CommentContent))
  mediaResult : Except Unit (Option (List String))

/-- urljoin("https://www.reddit.com", permalink) for the permalink shapes
the program meets: path-absolute references resolve against the site
root, absolute URLs pass through, bare relative references resolve under
the root (dot-segment normalisation is not exercised). -/
def urljoinReddit (p : String) : String :=
  if p.toList.head? = some '/' then ("https://www.reddit.com") ++ p
  else if ("http://").toList.isPrefixOf p.toList ∨
      ("https://").toList.isPrefixOf p.toList then p
  else ("https://www.reddit.com/") ++ p

/-- The content dict get_post builds; `comments` and `mediaPath` are none
when the corresponding key was never set (comment_limit ∧ media dir
falsy). -/
structure PostContent where
  tag : PostTag
  url : String
  post : Option String
  comments : Option (List (Option String × CommentContent))
  mediaPath : Option (Option (List String))
  deriving DecidableEq

/-- reddit_scraper.RedditScraper.get_post.  `Except.ok none` is the
per-item failure marker the docstring promises; `Except.error
PyErr.unboundLocal` is the exception escaping from the finally clause when
the failure happened before `driver` was assigned. -/
def get_post (env : DetailEnv) (post : FeedPostElem) (comment_limit : Nat)
    (download_media_dir : String) : Except PyErr (Option PostContent) :=
  match post.tag with
  | none => Except.error PyErr.unboundLocal
  | some tag =>
    match tag.permalink with
    | none => Except.error PyErr.unboundLocal
    | some plink =>
      if env.buildOk = false then Except.error PyErr.unboundLocal
      else if env.navOk = false then Except.ok none
      else
        match env.bodyResult with
        | Except.error _ => Except.ok none
        | Except.ok body =>
          if comment_limit ≠ 0 then
            match env.commentsResult with
            | Except.error _ => Except.ok none
            | Except.ok cs =>
              if download_media_dir ≠ ("") then
                match env.mediaResult with
                | Except.error _ => Except.ok none
                | Except.ok mp =>
                  Except.ok (some
                    ⟨tag, urljoinReddit plink, body, some cs, some mp⟩)
              else
                Except.ok (some
                  ⟨tag, urljoinReddit plink, body, some cs, none⟩)
          else
            if download_media_dir ≠ ("") then
              match env.mediaResult with
              | Except.error _ => Except.ok none
              | Except.ok mp =>
                Except.ok (some
                  ⟨tag, urljoinReddit plink, body, none, some mp⟩)
            else
              Except.ok (some ⟨tag, urljoinReddit plink, body, none, none⟩)

/-- A feed element whose attribute reads raise (stale element). -/
def stalePost : FeedPostElem := ⟨none⟩

/-- Attribute record of a healthy feed element. -/
def goodTag : PostTag :=
  ⟨some ("/r/test/comments/1/x/"), some ("https://i.redd.it/a-b.jpg"),
    some ("3"), some ("0"), some ("false"), some ("0"), some ("t"),
    some ("text"), some ("5"), some ("u"), some ("p1")⟩

/-- A healthy feed element. -/
def goodPost : FeedPostElem := ⟨some goodTag⟩

/-- Environment in which every per-item step succeeds. -/
def envHappy : DetailEnv :=
  ⟨true, true, Except.ok (some ("body")), Except.ok [], Except.ok none⟩

/-- Environment in which navigation fails after the driver is bound. -/
def envLateFail : DetailEnv :=
  ⟨true, false, Except.ok none, Except.ok [], Except.ok none⟩

/-! ## validate_reddit_url and its urllib.parse.urlparse dependency

validate_reddit_url(url) calls urlparse(url), then
`re.search(r"www\.reddit\.com", parts.netloc)` (a literal substring
search) and
`re.fullmatch(r"/r/([A-Za-z0-9_]{3,21})(/(hot|new|top|rising))?/?",
parts.path)`, raising a descriptive Exception when either fails and
returning the url unchanged otherwise.

The urlparse embedding follows CPython's urllib.parse: strip LEADING
C0-control-or-space characters only (urlsplit deliberately preserves
trailing space) and remove every tab, CR and LF; split a scheme when the
first colon is preceded only by scheme characters starting with an ASCII
letter; take the netloc after `//` up to the first of `/?#`, raising
ValueError on mismatched square brackets (the bracketed IPv6 host
validation is approximated by a character-level check — the program never
meets bracketed hosts); split the fragment at the first `#` then the
query at the first `?`; and, only when the scheme is in uses_params,
split params at the first `;` of the last path segment.  Only scheme,
netloc and path are retained, the fields the validator reads. -/

/-- A character in the WHATWG C0-control-or-space class lstripped by
urlsplit. -/
def c0OrSpace (c : Char) : Bool := c ≤ ' '

/-- Sanitisation performed by urlsplit before parsing: lstrip only (a
trailing space is preserved on purpose), then remove the unsafe bytes
tab, CR and LF everywhere. -/
def urlSanitize (l : List Char) : List Char :=
  (l.dropWhile c0OrSpace).filter
    (fun c => c ≠ '\t' ∧ c ≠ '\r' ∧ c ≠ '\n')

/-- Characters allowed after the first in a URL scheme. -/
def schemeChar (c : Char) : Bool :=
  ('a' ≤ c ∧ c ≤ 'z') ∨ ('A' ≤ c ∧ c ≤ 'Z') ∨ ('0' ≤ c ∧ c ≤ '9') ∨
    c = '+' ∨ c = '-' ∨ c = '.'

/-- An ASCII letter. -/
def isAsciiAlpha (c : Char) : Bool :=
  ('a' ≤ c ∧ c ≤ 'z') ∨ ('A' ≤ c ∧ c ≤ 'Z')

/-- Scan scheme characters up to a colon; none when a non-scheme character
or the end is reached first (then no scheme is split). -/
def schemeTake : List Char → Option (List Char × List Char)
  | [] => none
  | c :: t =>
    if c = ':' then some ([], t)
    else
      if schemeChar c then
        match schemeTake t with
        | some pr => some (c :: pr.1, pr.2)
        | none => none
      else none

/-- Split off `scheme:` when present: first character an ASCII letter, the
rest scheme characters up to the colon; the scheme is lower-cased. -/
def pySplitScheme (l : List Char) : List Char × List Char :=
  match l with
  | [] => ([], [])
  | c :: t =>
    if isAsciiAlpha c then
      match schemeTake t with
      | some pr => ((c :: pr.1).map asciiLower, pr.2)
      | none => ([], l)
    else ([], l)

/-- Split off the netloc when the remainder starts with `//`: everything
up to the first `/`, `?` or `#`. -/
def netlocSplit (l : List Char) : List Char × List Char :=
  match l with
  | '/' :: '/' :: t =>
    ((t.takeWhile (fun c => c ≠ '/' ∧ c ≠ '?' ∧ c ≠ '#')),
     (t.dropWhile (fun c => c ≠ '/' ∧ c ≠ '?' ∧ c ≠ '#')))
  | _ => ([], l)

/-- A hexadecimal digit. -/
def hexDigit (c : Char) : Bool :=
  ('0' ≤ c ∧ c ≤ '9') ∨ ('a' ≤ c ∧ c ≤ 'f') ∨ ('A' ≤ c ∧ c ≤ 'F')

/-- `netloc.partition('[')[2].partition(']')[0]`. -/
def bracketedHost (nl : List Char) : List Char :=
  ((nl.dropWhile (fun c => c ≠ '[')).drop 1).takeWhile (fun c => c ≠ ']')

/-- The bracket handling of urlsplit: mismatched brackets raise
ValueError; a bracketed host must look like an IPv6 literal (approximated
as nonempty hex/colon/dot data containing a colon). -/
def bracketCheck (nl : List Char) : Bool :=
  if nl.any (fun c => c = '[') ∨ nl.any (fun c => c = ']') then
    nl.any (fun c => c = '[') ∧ nl.any (fun c => c = ']') ∧
    bracketedHost nl ≠ [] ∧
    (bracketedHost nl).all (fun c => hexDigit c ∨ c = ':' ∨ c = '.') ∧
    (bracketedHost nl).any (fun c => c = ':')
  else true

/-- urllib.parse.uses_params (CPython 3.11): the schemes for which
urlparse splits `;params` off the path. -/
def usesParams : List (List Char) :=
  [[], ("ftp").toList, ("hdl").toList, ("prospero").toList,
   ("http").toList, ("imap").toList, ("https").toList, ("shttp").toList,
   ("rtsp").toList, ("rtsps").toList, ("rtspu").toList, ("sip").toList,
   ("sips").toList, ("mms").toList, ("sftp").toList, ("tel").toList]

/-- urlparse's `_splitparams`: drop `;params` from the last path
segment. -/
def splitParams (l : List Char) : List Char :=
  if l.any (fun c => c = ';') then
    if l.any (fun c => c = '/') then
      if ((l.reverse.takeWhile (fun c => c ≠ '/')).reverse).any
          (fun c => c = ';') then
        l.take (l.length -
            ((l.reverse.takeWhile (fun c => c ≠ '/')).reverse).length) ++
          ((l.reverse.takeWhile (fun c => c ≠ '/')).reverse).takeWhile
            (fun c => c ≠ ';')
      else l
    else l.takeWhile (fun c => c ≠ ';')
  else l

/-- The components of urlparse(url) the validator reads. -/
structure UrlParts where
  scheme : String
  netloc : String
  path : String
  deriving DecidableEq

/-- urllib.parse.urlparse restricted to scheme, netloc and path; the error
branch is the ValueError raised for invalid bracketed hosts.  The
`;params` split only happens when the (already lower-cased) scheme is in
uses_params. -/
def pyUrlparse (url : String) : Except String UrlParts :=
  match pySplitScheme (urlSanitize url.toList) with
  | (scheme, rest) =>
    match netlocSplit rest with
    | (netloc, rest2) =>
      if bracketCheck netloc = false then
        Except.error ("Invalid IPv6 URL")
      else
        Except.ok ⟨⟨scheme⟩, ⟨netloc⟩,
          ⟨if usesParams.any (fun s => s = scheme) then
              splitParams ((rest2.takeWhile (fun c => c ≠ '#')).takeWhile
                (fun c => c ≠ '?'))
            else
              ((rest2.takeWhile (fun c => c ≠ '#')).takeWhile
                (fun c => c ≠ '?'))⟩⟩

/-- The literal pattern of the netloc check. -/
def redditNetlocLit : List Char := ("www.reddit.com").toList

/-- `re.search` of a literal pattern: some suffix starts with it. -/
def searchSubstr (pat s : List Char) : Bool :=
  s.tails.any (fun t => pat.isPrefixOf t)

/-- The sort-mode alternation `hot|new|top|rising`. -/
def subredditSorts : List (List Char) :=
  [("hot").toList, ("new").toList, ("top").toList, ("rising").toList]

/-- The suffix after the subreddit name:
`(/(hot|new|top|rising))?/?` up to the end. -/
def tailMatch (t : List Char) : Bool :=
  t = [] ∨ t = [('/')] ∨ subredditSorts.any (fun s =>
    t = '/' :: s ∨ t = ('/' :: s) ++ [('/')])

/-- `re.fullmatch(r"/r/([A-Za-z0-9_]{3,21})(/(hot|new|top|rising))?/?",
path)` succeeds: the literal `/r/` anchors at the start and, with
backtracking, the greedy counted repetition has pure existential semantics
over the name length 3..21 (range' 3 19 enumerates 3,...,21). -/
def subredditPathMatch (p : List Char) : Bool :=
  (("/r/").toList.isPrefixOf p) &&
    (List.range' 3 19).any (fun k =>
      decide (k ≤ (p.drop 3).length) && ((p.drop 3).take k).all wordChar &&
        tailMatch ((p.drop 3).drop k))

/-- Error message for a non-reddit netloc. -/
def errNotReddit : String := "Invalid URL. Must be a link to reddit"

/-- Error message for an illegal subreddit path. -/
def errBadPath : String := "Invalid URL. Illegal subreddit path"

/-- reddit_scraper.RedditScraper.validate_reddit_url. -/
def validate_reddit_url (url : String) : Except String String :=
  match pyUrlparse url with
  | Except.error e => Except.error e
  | Except.ok parts =>
    if searchSubstr redditNetlocLit parts.netloc.toList = false then
      Except.error errNotReddit
    else
      if subredditPathMatch parts.path.toList = false then
        Except.error errBadPath
      else Except.ok url

/-- Declarative form of the sort-suffix alternation. -/
def SubredditTail (t : List Char) : Prop :=
  t = [] ∨ t = [('/')] ∨ ∃ s ∈ subredditSorts,
    t = '/' :: s ∨ t = ('/' :: s) ++ [('/')]

/-- Declarative form of the subreddit path grammar: `/r/`, a name of 3 to
21 word characters, an optional sort-mode segment, an optional trailing
slash. -/
def SubredditPathGrammar (p : String) : Prop :=
  ∃ name tail, p.toList = ("/r/").toList ++ name ++ tail ∧
    3 ≤ name.length ∧ name.length ≤ 21 ∧
    (∀ c ∈ name, wordChar c = true) ∧ SubredditTail tail

/-- Modelled from the claim's words: the URL is a reddit feed root URL —
its parsed host is exactly www.reddit.com — whose path matches the
subreddit grammar with optional sort-mode suffix. -/
def IsRedditFeedRootUrl (url : String) : Prop :=
  ∃ parts, pyUrlparse url = Except.ok parts ∧
    parts.netloc = ("www.reddit.com") ∧ SubredditPathGrammar parts.path

/-- URL whose netloc merely contains www.reddit.com as a substring. -/
def evilUrl : String := "https://www.reddit.com.evil.example/r/abc"

end RedditScraper

namespace RedditScraper

theorem retryGo_allFail {E A : Type} (retries : Nat) (op : Nat → Except E A) :
    ∀ remaining attempt sleeps calls,
      (∀ i, i < remaining → ∃ e, op (attempt + i) = .error e) →
      retryGo retries op remaining attempt sleeps calls =
        (.error (.raised (exhaustMsg retries)), sleeps + remaining, calls + remaining) := by
  intro remaining
  induction remaining with
  | zero => intro attempt sleeps calls _; simp [retryGo]
  | succ n ih =>
    intro attempt sleeps calls h
    obtain ⟨e, he⟩ := h 0 (Nat.succ_pos n)
    simp only [Nat.add_zero] at he
    have step : ∀ i, i < n → ∃ e2, op (attempt + 1 + i) = .error e2 := by
      intro i hi
      obtain ⟨e2, he2⟩ := h (i + 1) (Nat.succ_lt_succ hi)
      exact ⟨e2, by rw [← he2]; congr 1; omega⟩
    have hred : retryGo retries op (n + 1) attempt sleeps calls
        = retryGo retries op n (attempt + 1) (sleeps + 1) (calls + 1) := by
      rw [retryGo, he]
    have hs : sleeps + 1 + n = sleeps + (n + 1) := by omega
    have hc : calls + 1 + n = calls + (n + 1) := by omega
    rw [hred, ih (attempt + 1) (sleeps + 1) (calls + 1) step, hs, hc]

/-- C5 (amended): with `attempts = 3`, an operation failing on attempts 1
and 2 and succeeding on attempt 3 makes the wrapper return the success
result after exactly 2 sleeps and 3 invocations; an operation failing on
all 3 attempts makes the wrapper raise, only after all 3 attempts are
spent, a fresh exhausted-retry exception (the final operation failure is
not re-raised). -/
theorem retry_attempts_three {E A : Type} (op : Nat → Except E A) (a : A)
    (h0 : ∃ e, op 0 = .error e) (h1 : ∃ e, op 1 = .error e)
    (h2 : op 2 = .ok a) :
    retryRun 3 op = (.ok a, 2, 3) ∧
    ∀ {E2 B : Type} (op2 : Nat → Except E2 B),
      (∀ i, i < 3 → ∃ e, op2 i = .error e) →
      retryRun 3 op2 = (.error (.raised (exhaustMsg 3)), 3, 3) := by
  constructor
  · obtain ⟨e0, he0⟩ := h0
    obtain ⟨e1, he1⟩ := h1
    simp [retryRun, retryGo, he0, he1, h2]
  · intro E2 B op2 hfail
    have := retryGo_allFail 3 op2 3 0 0 0 (by simpa using hfail)
    simpa [retryRun] using this

/-- Operation used to witness the success-on-third-attempt path. -/
def opWitness : Nat → Except String Nat :=
  fun i => if i < 2 then .error (toString i) else .ok 7

/-- Operation failing on every attempt, first error payload. -/
def opFailA : Nat → Except String Unit := fun _ => .error "boom"

/-- Operation failing on every attempt, different error payload. -/
def opFailB : Nat → Except String Unit := fun _ => .error "other"

/-- Witness for C5: the amended retry theorem applied at concrete
operations. -/
theorem retry_attempts_three_witness :
    retryRun 3 opWitness = (.ok 7, 2, 3) ∧
    retryRun 3 opFailA = (.error (.raised (exhaustMsg 3)), 3, 3) := by
  have h := retry_attempts_three opWitness 7
    ⟨"0", rfl⟩ ⟨"1", rfl⟩ rfl
  exact ⟨h.1, h.2 opFailA (by intro i _; exact ⟨"boom", rfl⟩)⟩

/-- Counterexample for C5 as stated: the exception raised after exhaustion
is a constant that does not carry the final operation failure — two
operations whose final failures differ produce the very same escaping
exception, so the wrapper does not re-raise the final failure. -/
theorem retry_no_reraise_counterexample :
    retryRun 3 opFailA = retryRun 3 opFailB ∧
    opFailA 2 ≠ opFailB 2 ∧
    (retryRun 3 opFailA).1 = .error (.raised (exhaustMsg 3)) := by
  refine ⟨rfl, ?_, rfl⟩
  intro h
  simp [opFailA, opFailB] at h

theorem runSched_eq {A B : Type} (f : A → B) (stubs : List A)
    (sched : List Nat) :
    runSched f stubs sched =
      runSchedFrom f stubs sched (List.replicate stubs.length none) := rfl

theorem runSched_spec {A B : Type} (f : A → B) (stubs : List A) :
    ∀ (sched : List Nat) (slots : List (Option B)),
      slots.length = stubs.length →
      (runSchedFrom f stubs sched slots).length = slots.length ∧
      ∀ j (hj : j < stubs.length),
        (runSchedFrom f stubs sched slots)[j]? =
          if j ∈ sched then some (some (f stubs[j]))
          else slots[j]? := by
  intro sched
  induction sched with
  | nil =>
    intro slots hlen
    refine ⟨rfl, ?_⟩
    intro j hj
    simp [runSchedFrom]
  | cons k ks ih =>
    intro slots hlen
    by_cases hk : k < stubs.length
    · have hsk : stubs[k]? = some stubs[k] := List.getElem?_eq_getElem hk
      have hstep : runSchedFrom f stubs (k :: ks) slots =
          runSchedFrom f stubs ks (slots.set k (some (f stubs[k]))) := by
        simp only [runSchedFrom, hsk]
      obtain ⟨ihlen, ihget⟩ := ih (slots.set k (some (f stubs[k]))) (by simp [hlen])
      refine ⟨by rw [hstep, ihlen]; simp, ?_⟩
      intro j hj
      rw [hstep, ihget j hj]
      by_cases hjks : j ∈ ks
      · simp [hjks]
      · by_cases hjk : j = k
        · subst hjk
          have hset : (slots.set j (some (f stubs[j])))[j]? =
              some (some (f stubs[j])) :=
            List.getElem?_set_self (by omega)
          simp [hjks, hset]
        · have hnot : j ∉ k :: ks := by simp [hjk, hjks]
          simp only [hjks, hnot, if_false]
          exact List.getElem?_set_ne (fun h => hjk h.symm)
    · have hsk : stubs[k]? = none := List.getElem?_eq_none (by omega)
      have hstep : runSchedFrom f stubs (k :: ks) slots =
          runSchedFrom f stubs ks slots := by
        simp only [runSchedFrom, hsk]
      obtain ⟨ihlen, ihget⟩ := ih slots hlen
      refine ⟨by rw [hstep, ihlen], ?_⟩
      intro j hj
      rw [hstep, ihget j hj]
      have hjk : j ≠ k := by omega
      by_cases hjks : j ∈ ks
      · simp [hjks]
      · have hnot : j ∉ k :: ks := by simp [hjk, hjks]
        simp [hjks, hnot]

/-- C3: the dispatcher's output equals the input stubs mapped through the
detail-fetch function, for every completion schedule that completes every
task — output length equals input length and the i-th slot holds the
result for the i-th stub, regardless of completion order. -/
theorem dispatch_preserves_order {A B : Type} (f : A → B) (stubs : List A)
    (sched : List Nat) (hcov : ∀ i, i < stubs.length → i ∈ sched) :
    dispatch f stubs sched = stubs.map (fun s => some (f s)) ∧
    (dispatch f stubs sched).length = stubs.length ∧
    ∀ i (hi : i < stubs.length),
      (dispatch f stubs sched)[i]? = some (some (f stubs[i])) := by
  obtain ⟨hlen, hget⟩ := runSched_spec f stubs sched
    (List.replicate stubs.length (none : Option B)) (by simp)
  have hmain : dispatch f stubs sched = stubs.map (fun s => some (f s)) := by
    apply List.ext_getElem?
    intro j
    by_cases hj : j < stubs.length
    · have hx := hget j hj
      rw [if_pos (hcov j hj)] at hx
      rw [dispatch, runSched_eq, hx]
      simp [hj]
    · have h1 : (dispatch f stubs sched)[j]? = none := by
        apply List.getElem?_eq_none
        rw [dispatch, runSched_eq, hlen]
        simp
        omega
      have h2 : (stubs.map (fun s => some (f s)))[j]? = none := by
        apply List.getElem?_eq_none
        simp
        omega
      rw [h1, h2]
  refine ⟨hmain, ?_, ?_⟩
  · rw [hmain]; simp
  · intro i hi
    rw [hmain]
    simp [hi]

/-- Witness for C3: a concrete three-stub batch under a scrambled
completion schedule still produces the in-order output. -/
theorem dispatch_preserves_order_witness :
    dispatch (fun n => n + 1) [10, 20, 30] [2, 0, 1, 0] =
      [some 11, some 21, some 31] :=
  (dispatch_preserves_order (fun n => n + 1) [10, 20, 30] [2, 0, 1, 0]
    (by decide)).1

theorem lastRender_cons (r r2 : List PostNode) (rest : List (List PostNode)) :
    lastRender (r :: r2 :: rest) = lastRender (r2 :: rest) := rfl

theorem chain_prefix_lastRender :
    ∀ (rest : List (List PostNode)) (r : List PostNode),
      List.Chain' (· <+: ·) (r :: rest) → r <+: lastRender (r :: rest) := by
  intro rest
  induction rest with
  | nil => intro r _; exact List.prefix_refl r
  | cons r2 rest2 ih =>
    intro r hch
    rw [lastRender_cons]
    have h12 : r <+: r2 := (List.chain'_cons.mp hch).1
    exact h12.trans (ih r2 (List.chain'_cons.mp hch).2)

theorem collectBatch_stop (l : Nat) :
    ∀ (nodes : List PostNode) (ids : List String), ¬ ids.length < l →
      collectBatch (some l) ids nodes = (ids, []) := by
  intro nodes
  induction nodes with
  | nil => intro ids _; rfl
  | cons n rest ih =>
    intro ids h
    have hq : underQuota (some l) ids = false := by
      simp only [underQuota, decide_eq_false_iff_not]
      exact h
    simp only [collectBatch, hq, Bool.false_eq_true, if_false]
    exact ih ids h

theorem collectBatch_none :
    ∀ (nodes : List PostNode) (ids : List String),
      (ids ++ nodes.map PostNode.id).Nodup →
      collectBatch none ids nodes = (ids ++ nodes.map PostNode.id, nodes) := by
  intro nodes
  induction nodes with
  | nil => intro ids _; simp [collectBatch]
  | cons n rest ih =>
    intro ids hnd
    have hfresh : n.id ∉ ids := by
      rcases List.nodup_append.mp hnd with ⟨_, _, hdisj⟩
      intro hmem
      exact hdisj hmem (by simp)
    have hins : insertId ids n.id = ids ++ [n.id] := by
      simp [insertId, hfresh]
    have hnd2 : ((ids ++ [n.id]) ++ rest.map PostNode.id).Nodup := by
      simpa [List.append_assoc] using hnd
    simp [collectBatch, underQuota, hins, ih (ids ++ [n.id]) hnd2]

theorem collectBatch_some (l : Nat) :
    ∀ (nodes : List PostNode) (ids : List String),
      (ids ++ nodes.map PostNode.id).Nodup →
      collectBatch (some l) ids nodes =
        (ids ++ (nodes.take (l - ids.length)).map PostNode.id,
         nodes.take (l - ids.length)) := by
  intro nodes
  induction nodes with
  | nil => intro ids _; simp [collectBatch]
  | cons n rest ih =>
    intro ids hnd
    by_cases hlt : ids.length < l
    · have hfresh : n.id ∉ ids := by
        rcases List.nodup_append.mp hnd with ⟨_, _, hdisj⟩
        intro hmem
        exact hdisj hmem (by simp)
      have hins : insertId ids n.id = ids ++ [n.id] := by
        simp [insertId, hfresh]
      have hq : underQuota (some l) ids = true := by
        simp only [underQuota, decide_eq_true_eq]
        exact hlt
      have hnd2 : ((ids ++ [n.id]) ++ rest.map PostNode.id).Nodup := by
        simpa [List.append_assoc] using hnd
      have harith : l - ids.length = (l - ((ids ++ [n.id]).length)) + 1 := by
        simp only [List.length_append, List.length_cons, List.length_nil]
        omega
      simp only [collectBatch, hq, if_true, hins, ih (ids ++ [n.id]) hnd2]
      rw [harith, List.take_succ_cons]
      simp [List.append_assoc]
    · have hq : underQuota (some l) ids = false := by
        simp only [underQuota, decide_eq_false_iff_not]
        exact hlt
      have h0 : l - ids.length = 0 := by omega
      simp only [collectBatch, hq, Bool.false_eq_true, if_false,
        collectBatch_stop l rest ids hlt, h0, List.take_zero]
      simp

theorem seg_assemble (L : List PostNode) (c m t : Nat)
    (hcm : c ≤ m) (hmt : m ≤ t) :
    (L.drop c).take (m - c) ++ (L.drop m).take (t - m) =
      (L.drop c).take (t - c) := by
  have hdd : (L.drop c).drop (m - c) = L.drop m := by
    rw [List.drop_drop]
    congr 1
    omega
  rw [← hdd, ← List.take_add]
  congr 1
  omega

theorem prefix_drop_take (r L : List PostNode) (c : Nat) (hpre : r <+: L) :
    r.drop c = (L.drop c).take (r.length - c) := by
  have hr : r = L.take r.length := List.prefix_iff_eq_take.mp hpre
  calc r.drop c = (L.take r.length).drop c := by rw [← hr]
    _ = (L.drop c).take (r.length - c) := List.drop_take r.length c L

theorem getPostsGo_flatten (q : Option Nat) :
    ∀ (rest : List (List PostNode)) (r : List PostNode) (ids : List String)
      (count : Nat),
      List.Chain' (· <+: ·) (r :: rest) →
      ((lastRender (r :: rest)).map PostNode.id).Nodup →
      [] ∉ r :: rest →
      count ≤ r.length →
      ids = (r.take count).map PostNode.id →
      (∀ l, q = some l → count < l) →
      (getPostsGo q ids count (r :: rest)).flatten =
        ((lastRender (r :: rest)).drop count).take
          (Tot q (lastRender (r :: rest)).length - count) := by
  intro rest
  induction rest with
  | nil =>
    intro r ids count hch hnd hne hcount hids hq
    have hr0 : r ≠ [] := by
      intro h
      exact hne (by simp [h])
    have hlast : lastRender [r] = r := rfl
    have hidslen : ids.length = count := by
      rw [hids, List.length_map, List.length_take]
      omega
    have hsplit : ids ++ (r.drop count).map PostNode.id = r.map PostNode.id := by
      rw [hids, ← List.map_append, List.take_append_drop]
    have hndr : (r.map PostNode.id).Nodup := hnd
    have hndpre : (ids ++ (r.drop count).map PostNode.id).Nodup := by
      rw [hsplit]
      exact hndr
    cases q with
    | none =>
      have hcb := collectBatch_none (r.drop count) ids hndpre
      rw [hsplit] at hcb
      simp only [getPostsGo, hr0, if_false, hcb, quotaReached,
        Bool.false_eq_true, List.flatten_cons, List.flatten_nil,
        List.append_nil, Tot, hlast]
      rw [List.take_of_length_le (by simp)]
    | some l =>
      have hcb := collectBatch_some l (r.drop count) ids hndpre
      rw [hidslen] at hcb
      have hcl : count < l := hq l rfl
      by_cases hhit :
          (ids ++ ((r.drop count).take (l - count)).map PostNode.id).length = l
      · have hql : quotaReached (some l)
            (ids ++ ((r.drop count).take (l - count)).map PostNode.id)
              = true := by
          simp only [quotaReached, beq_iff_eq]
          exact hhit
        have hlr : l ≤ r.length := by
          have hx := hhit
          simp only [List.length_append, List.length_map, List.length_take,
            List.length_drop, hidslen] at hx
          omega
        simp only [getPostsGo, hr0, if_false, hcb, hql, if_true,
          List.flatten_cons, List.flatten_nil, List.append_nil, Tot, hlast]
        rw [Nat.min_eq_left hlr]
      · have hql : quotaReached (some l)
            (ids ++ ((r.drop count).take (l - count)).map PostNode.id)
              = false := by
          simp only [quotaReached, beq_eq_false_iff_ne, ne_eq]
          exact hhit
        have hrl : r.length < l := by
          have hx := hhit
          simp only [List.length_append, List.length_map, List.length_take,
            List.length_drop, hidslen] at hx
          omega
        simp only [getPostsGo, hr0, if_false, hcb, hql, Bool.false_eq_true,
          List.flatten_cons, List.flatten_nil, List.append_nil, Tot, hlast]
        rw [List.take_of_length_le (by simp [List.length_drop]; omega),
          Nat.min_eq_right (by omega),
          List.take_of_length_le (by simp)]
  | cons r2 rest2 ih =>
    intro r ids count hch hnd hne hcount hids hq
    have hr0 : r ≠ [] := by
      intro h
      exact hne (by simp [h])
    have h12 : r <+: r2 := (List.chain'_cons.mp hch).1
    have hch2 : List.Chain' (· <+: ·) (r2 :: rest2) := (List.chain'_cons.mp hch).2
    have hpre2 : r2 <+: lastRender (r2 :: rest2) :=
      chain_prefix_lastRender rest2 r2 hch2
    have hpre : r <+: lastRender (r2 :: rest2) := h12.trans hpre2
    have hndL : ((lastRender (r2 :: rest2)).map PostNode.id).Nodup := hnd
    have hndr : (r.map PostNode.id).Nodup :=
      ((hpre.map PostNode.id).sublist).nodup hndL
    have hne2 : [] ∉ r2 :: rest2 := by
      intro h
      exact hne (List.mem_cons_of_mem r h)
    have hidslen : ids.length = count := by
      rw [hids, List.length_map, List.length_take]
      omega
    have hsplit : ids ++ (r.drop count).map PostNode.id = r.map PostNode.id := by
      rw [hids, ← List.map_append, List.take_append_drop]
    have hndpre : (ids ++ (r.drop count).map PostNode.id).Nodup := by
      rw [hsplit]
      exact hndr
    have hids2 : r.map PostNode.id = (r2.take r.length).map PostNode.id := by
      rw [← List.prefix_iff_eq_take.mp h12]
    have hrL : r.length ≤ (lastRender (r2 :: rest2)).length := hpre.length_le
    have hlc : lastRender (r :: r2 :: rest2) = lastRender (r2 :: rest2) := rfl
    rw [hlc]
    have hunfold : ∀ qq, getPostsGo qq ids count (r :: r2 :: rest2) =
        if r = [] then []
        else
          if quotaReached qq (collectBatch qq ids (r.drop count)).1 then
            [(collectBatch qq ids (r.drop count)).2]
          else
            (collectBatch qq ids (r.drop count)).2 ::
              getPostsGo qq (collectBatch qq ids (r.drop count)).1
                (count + (collectBatch qq ids (r.drop count)).2.length)
                (r2 :: rest2) := by
      intro qq
      rfl
    cases q with
    | none =>
      have hcb := collectBatch_none (r.drop count) ids hndpre
      rw [hsplit] at hcb
      have hcount2 : count + (r.drop count).length = r.length := by
        simp only [List.length_drop]
        omega
      have hih := ih r2 (r.map PostNode.id) r.length hch2 hndL hne2
        h12.length_le hids2 (by intro l h; cases h)
      rw [hunfold none, if_neg hr0]
      simp only [hcb, quotaReached, Bool.false_eq_true, if_false,
        List.flatten_cons, hcount2]
      rw [hih, prefix_drop_take r (lastRender (r2 :: rest2)) count hpre]
      exact seg_assemble (lastRender (r2 :: rest2)) count r.length
        (lastRender (r2 :: rest2)).length hcount hrL
    | some l =>
      have hcb := collectBatch_some l (r.drop count) ids hndpre
      rw [hidslen] at hcb
      have hcl : count < l := hq l rfl
      by_cases hhit :
          (ids ++ ((r.drop count).take (l - count)).map PostNode.id).length = l
      · have hql : quotaReached (some l)
            (ids ++ ((r.drop count).take (l - count)).map PostNode.id)
              = true := by
          simp only [quotaReached, beq_iff_eq]
          exact hhit
        have hlr : l ≤ r.length := by
          have hx := hhit
          simp only [List.length_append, List.length_map, List.length_take,
            List.length_drop, hidslen] at hx
          omega
        rw [hunfold (some l), if_neg hr0]
        simp only [hcb, hql, if_true, List.flatten_cons, List.flatten_nil,
          List.append_nil, Tot]
        rw [prefix_drop_take r (lastRender (r2 :: rest2)) count hpre,
          List.take_take, Nat.min_eq_left (by omega :
            l - count ≤ r.length - count),
          Nat.min_eq_left (le_trans hlr hrL)]
      · have hql : quotaReached (some l)
            (ids ++ ((r.drop count).take (l - count)).map PostNode.id)
              = false := by
          simp only [quotaReached, beq_eq_false_iff_ne, ne_eq]
          exact hhit
        have hrl : r.length < l := by
          have hx := hhit
          simp only [List.length_append, List.length_map, List.length_take,
            List.length_drop, hidslen] at hx
          omega
        have hbatch : (r.drop count).take (l - count) = r.drop count :=
          List.take_of_length_le (by simp [List.length_drop]; omega)
        have hcount2 : count + ((r.drop count).take (l - count)).length
            = r.length := by
          rw [hbatch, List.length_drop]
          omega
        have hids3 : ids ++ ((r.drop count).take (l - count)).map PostNode.id
            = (r2.take r.length).map PostNode.id := by
          rw [hbatch, hsplit, hids2]
        have hih := ih r2 ((r2.take r.length).map PostNode.id) r.length hch2
          hndL hne2 h12.length_le rfl
          (by intro l2 h2; cases h2; omega)
        rw [hunfold (some l), if_neg hr0]
        simp only [hcb]
        rw [if_neg (by rw [hql]; simp)]
        simp only [List.flatten_cons, hcount2, hids3]
        rw [hih, hbatch,
          prefix_drop_take r (lastRender (r2 :: rest2)) count hpre]
        have hmt : r.length ≤ Tot (some l) (lastRender (r2 :: rest2)).length := by
          simp only [Tot]
          exact Nat.le_min.mpr ⟨Nat.le_of_lt hrl, hrL⟩
        exact seg_assemble (lastRender (r2 :: rest2)) count r.length
          (Tot (some l) (lastRender (r2 :: rest2)).length) hcount hmt

/-- C1: over a cumulatively growing surface (each scroll extends the
previous render) whose final render lists the distinct identifiers `D`, a
discovery run of get_posts with quota `Q` dispatches exactly
`min(Q, |D|)` stubs across all batches (all of `D` when `Q` is unset), and
no identifier is emitted in more than one batch (the flattened run is
duplicate-free). -/
theorem discovery_total_and_disjoint (Q : Option Nat)
    (renders : List (List PostNode))
    (hne : renders ≠ [])
    (hchain : List.Chain' (· <+: ·) renders)
    (hnodup : ((lastRender renders).map PostNode.id).Nodup)
    (hnonempty : [] ∉ renders) :
    ((get_posts Q renders).flatten).length = Tot Q (lastRender renders).length ∧
    (((get_posts Q renders).flatten).map PostNode.id).Nodup := by
  cases renders with
  | nil => exact absurd rfl hne
  | cons r rest =>
    by_cases hq0 : Q = some 0
    · subst hq0
      have hr0 : r ≠ [] := by
        intro h
        exact hnonempty (by simp [h])
      have hcb : collectBatch (some 0) [] (r.drop 0) = ([], []) :=
        collectBatch_stop 0 (r.drop 0) [] (by simp)
      have hgo : getPostsGo (some 0) ([] : List String) 0 (r :: rest) = [[]] := by
        rw [show getPostsGo (some 0) ([] : List String) 0 (r :: rest) =
            (if r = [] then []
             else
               if quotaReached (some 0)
                   (collectBatch (some 0) [] (r.drop 0)).1 then
                 [(collectBatch (some 0) [] (r.drop 0)).2]
               else
                 (collectBatch (some 0) [] (r.drop 0)).2 ::
                   getPostsGo (some 0) (collectBatch (some 0) [] (r.drop 0)).1
                     (0 + (collectBatch (some 0) [] (r.drop 0)).2.length)
                     rest) from rfl]
        rw [if_neg hr0, hcb]
        rfl
      have hflat : get_posts (some 0) (r :: rest) = [[]] := hgo
      rw [hflat]
      constructor
      · simp [Tot]
      · simp
    · have hq' : ∀ l, Q = some l → 0 < l := by
        intro l h
        rcases Nat.eq_zero_or_pos l with h0 | h0
        · subst h0
          exact absurd h hq0
        · exact h0
      have hmain := getPostsGo_flatten Q rest r [] 0 hchain hnodup hnonempty
        (Nat.zero_le _) (by simp) hq'
      have hflatten : (get_posts Q (r :: rest)).flatten =
          (lastRender (r :: rest)).take
            (Tot Q (lastRender (r :: rest)).length) := by
        simpa using hmain
      have htle : Tot Q (lastRender (r :: rest)).length ≤
          (lastRender (r :: rest)).length := by
        cases Q with
        | none => exact Nat.le_refl _
        | some l => exact Nat.min_le_right l _
      constructor
      · rw [show (get_posts Q (r :: rest)).flatten.length =
            ((get_posts Q (r :: rest)).flatten).length from rfl, hflatten,
          List.length_take]
        exact Nat.min_eq_left htle
      · rw [hflatten, List.map_take]
        exact (List.take_sublist _ _).nodup hnodup

/-- Witness for C1: quota 2 over a surface growing from one to three
distinct posts dispatches exactly two stubs, without duplicates. -/
theorem discovery_total_and_disjoint_witness :
    ((get_posts (some 2) [[nodeP1], [nodeP1, nodeP2, nodeP3]]).flatten).length
        = 2 ∧
    (((get_posts (some 2)
        [[nodeP1], [nodeP1, nodeP2, nodeP3]]).flatten).map PostNode.id).Nodup := by
  have h := discovery_total_and_disjoint (some 2)
    [[nodeP1], [nodeP1, nodeP2, nodeP3]] (by decide)
    (List.chain'_cons.mpr ⟨⟨[nodeP2, nodeP3], rfl⟩, List.chain'_singleton _⟩)
    (by decide) (by decide)
  refine ⟨?_, h.2⟩
  rw [h.1]
  rfl

/-- C4 counterexample: with the surface re-rendering the already-seen node
"a" beyond the slice index, get_posts dispatches it again — the identifier
is emitted in two different batches and the flattened output is not
duplicate-free, contrary to the claim that a colliding node is silently
skipped. -/
theorem discover_reseen_counterexample :
    get_posts none [[nodeA], [nodeA, nodeA]] = [[nodeA], [nodeA]] ∧
    ¬ (((get_posts none
        [[nodeA], [nodeA, nodeA]]).flatten.map PostNode.id).Nodup) := by
  constructor
  · decide
  · decide

/-- C4 (amended): presenting a node whose identifier is already in the seen
set leaves `post_ids` — and with it the quota accounting — unchanged, but
the colliding node is not skipped: whenever the quota check passes it is
appended to the current batch again (re-dispatched and re-emitted). -/
theorem discover_reseen_amended (limit : Option Nat) (ids : List String)
    (n : PostNode) (rest : List PostNode) (h : n.id ∈ ids) :
    (collectBatch limit ids (n :: rest)).1 = (collectBatch limit ids rest).1 ∧
    (underQuota limit ids = true →
      (collectBatch limit ids (n :: rest)).2 =
        n :: (collectBatch limit ids rest).2) ∧
    (underQuota limit ids = false →
      (collectBatch limit ids (n :: rest)).2 =
        (collectBatch limit ids rest).2) := by
  have hins : insertId ids n.id = ids := by
    simp [insertId, h]
  cases huq : underQuota limit ids with
  | true => simp [collectBatch, huq, hins]
  | false => simp [collectBatch, huq, hins]

/-- Witness for C4's amended theorem: re-presenting the seen node "a" under
no quota leaves the seen set unchanged and re-emits the node. -/
theorem discover_reseen_amended_witness :
    (collectBatch none ["a"] [nodeA]).1 = (collectBatch none ["a"] []).1 ∧
    (collectBatch none ["a"] [nodeA]).2 =
      nodeA :: (collectBatch none ["a"] []).2 := by
  have h := discover_reseen_amended none ["a"] nodeA [] (by decide)
  exact ⟨h.1, h.2.1 rfl⟩

theorem get_spec (ids : List (Option String)) (c : CommentNode) (limit : Nat) :
    ∀ sc cont ids2,
      CommentScraper.get ids c limit = Except.ok (sc, cont, ids2) →
      (sc = [] ∧ ids2 = ids ∧ cont = true) ∨
      (∃ content, sc = [(c.thingid, content)] ∧ ids2 = ids ++ [c.thingid] ∧
        c.thingid ∉ ids ∧
        (cont = false → ids2.length = limit) ∧
        (cont = true → ids2.length ≠ limit)) := by
  intro sc cont ids2 hok
  unfold CommentScraper.get at hok
  split at hok
  · cases hok
  · split at hok
    · rename_i hmem
      simp only [Except.ok.injEq, Prod.mk.injEq] at hok
      obtain ⟨h1, h2, h3⟩ := hok
      exact Or.inl ⟨h1.symm, h3.symm, h2.symm⟩
    · rename_i content heq hmem
      split at hok
      · rename_i hq
        simp only [Except.ok.injEq, Prod.mk.injEq] at hok
        obtain ⟨h1, h2, h3⟩ := hok
        refine Or.inr ⟨content, h1.symm, h3.symm, hmem, ?_, ?_⟩
        · intro _
          rw [← h3]
          exact hq
        · intro hc
          exact absurd (h2.trans hc) (by simp)
      · rename_i hq
        split at hok
        · cases hok
        · simp only [Except.ok.injEq, Prod.mk.injEq] at hok
          obtain ⟨h1, h2, h3⟩ := hok
          refine Or.inr ⟨content, h1.symm, h3.symm, hmem, ?_, ?_⟩
          · intro hc
            exact absurd (h2.trans hc) (by simp)
          · intro _
            rw [← h3]
            exact hq

theorem processSlice_spec (limit : Nat) :
    ∀ (nodes : List CommentNode)
      (all : List (Option String × CommentContent))
      (ids : List (Option String)),
      ids = all.map Prod.fst →
      ids.length < limit →
      ids.Nodup →
      ∀ res, CommentScraper.processSlice limit nodes all ids = Except.ok res →
        res.2.1 = res.1.map Prod.fst ∧
        res.1.length ≤ limit ∧
        (res.2.2 = false → res.1.length < limit) ∧
        res.2.1.Nodup := by
  intro nodes
  induction nodes with
  | nil =>
    intro all ids hids hlen hnd res hok
    cases hok
    have hl : all.length = ids.length := by
      rw [hids, List.length_map]
    refine ⟨hids, ?_, ?_, hnd⟩
    · show all.length ≤ limit
      omega
    · intro _
      show all.length < limit
      omega
  | cons c rest ih =>
    intro all ids hids hlen hnd res hok
    by_cases hd : c.depth ≠ some strZero
    · rw [CommentScraper.processSlice, if_pos hd] at hok
      exact ih all ids hids hlen hnd res hok
    · rw [CommentScraper.processSlice, if_neg hd] at hok
      cases hget : CommentScraper.get ids c limit with
      | error e => rw [hget] at hok; cases hok
      | ok trip =>
        obtain ⟨sc, cont, ids2⟩ := trip
        rw [hget] at hok
        rcases get_spec ids c limit sc cont ids2 hget with
          ⟨hsc0, hids0, hcont⟩ | ⟨content, hsc1, hids1, hmem, hcf, hct⟩
        · rw [hsc0, hids0, hcont] at hok
          have hok2 : CommentScraper.processSlice limit rest (all ++ []) ids =
              Except.ok res := hok
          rw [List.append_nil] at hok2
          exact ih all ids hids hlen hnd res hok2
        · have hnd2 : ids2.Nodup := by
            rw [hids1]
            simp [List.nodup_append, hnd, hmem]
          have hids2 : ids2 = (all ++ sc).map Prod.fst := by
            rw [hids1, hsc1, List.map_append, hids]
            rfl
          cases cont with
          | false =>
            have hok2 : Except.ok (all ++ sc, ids2, true) = Except.ok res := hok
            cases hok2
            refine ⟨hids2, ?_, ?_, hnd2⟩
            · have hll := hcf rfl
              have hl2 : (all ++ sc).length = ids2.length := by
                rw [hids2, List.length_map]
              show (all ++ sc).length ≤ limit
              omega
            · intro h
              simp at h
          | true =>
            have hok2 : CommentScraper.processSlice limit rest (all ++ sc) ids2 =
                Except.ok res := hok
            have hlen2 : ids2.length < limit := by
              have hne := hct rfl
              have hl1 : ids2.length = ids.length + 1 := by
                rw [hids1]
                simp
              omega
            exact ih (all ++ sc) ids2 hids2 hlen2 hnd2 res hok2

theorem scrapeGo_spec (limit : Nat) :
    ∀ (renders : List (List CommentNode))
      (all : List (Option String × CommentContent))
      (ids : List (Option String)),
      ids = all.map Prod.fst →
      ids.length < limit →
      ids.Nodup →
      ∀ l, CommentScraper.scrapeGo limit renders all ids = Except.ok l →
        l.length ≤ limit ∧ (l.map Prod.fst).Nodup := by
  intro renders
  induction renders with
  | nil =>
    intro all ids hids hlen hnd l hok
    cases hok
    have hl : all.length = ids.length := by
      rw [hids, List.length_map]
    exact ⟨by omega, by rw [← hids]; exact hnd⟩
  | cons r rest ih =>
    intro all ids hids hlen hnd l hok
    rw [CommentScraper.scrapeGo] at hok
    cases hps : CommentScraper.processSlice limit (r.drop all.length) all ids with
    | error e => rw [hps] at hok; cases hok
    | ok trip =>
      obtain ⟨all2, ids2, early⟩ := trip
      rw [hps] at hok
      obtain ⟨hids2, hlen2, hlt2, hnd2⟩ :=
        processSlice_spec limit (r.drop all.length) all ids hids hlen hnd
          (all2, ids2, early) hps
      simp only at hids2 hlen2 hlt2 hnd2
      cases early with
      | true =>
        have hok2 : Except.ok all2 = Except.ok l := hok
        cases hok2
        exact ⟨hlen2, by rw [← hids2]; exact hnd2⟩
      | false =>
        cases rest with
        | nil =>
          have hok2 : Except.ok all2 = Except.ok l := hok
          cases hok2
          exact ⟨hlen2, by rw [← hids2]; exact hnd2⟩
        | cons r2 rest2 =>
          have hok2 : CommentScraper.scrapeGo limit (r2 :: rest2) all2 ids2 =
              Except.ok l := hok
          have hlen3 : ids2.length < limit := by
            have hl2 : ids2.length = all2.length := by
              rw [hids2, List.length_map]
            have hx := hlt2 rfl
            omega
          exact ih all2 ids2 hids2 hlen3 hnd2 l hok2

theorem processSlice_skip (limit : Nat) :
    ∀ (nodes : List CommentNode)
      (all : List (Option String × CommentContent))
      (ids : List (Option String)),
      (∀ c ∈ nodes, c.depth ≠ some strZero) →
      CommentScraper.processSlice limit nodes all ids =
        Except.ok (all, ids, false) := by
  intro nodes
  induction nodes with
  | nil => intro all ids _; rfl
  | cons c rest ih =>
    intro all ids h
    rw [CommentScraper.processSlice,
      if_pos (h c (List.mem_cons_self c rest))]
    exact ih all ids (fun c2 hc2 => h c2 (List.mem_cons_of_mem c hc2))

theorem scrapeGo_skip (limit : Nat) :
    ∀ (renders : List (List CommentNode))
      (all : List (Option String × CommentContent))
      (ids : List (Option String)),
      (∀ r ∈ renders, ∀ c ∈ r, c.depth ≠ some strZero) →
      CommentScraper.scrapeGo limit renders all ids = Except.ok all := by
  intro renders
  induction renders with
  | nil => intro all ids _; rfl
  | cons r rest ih =>
    intro all ids h
    rw [CommentScraper.scrapeGo,
      processSlice_skip limit (r.drop all.length) all ids
        (fun c hc => h r (List.mem_cons_self r rest) c
          (List.mem_of_mem_drop hc))]
    cases rest with
    | nil => rfl
    | cons r2 rest2 =>
      exact ih all ids
        (fun r3 hr3 => h r3 (List.mem_cons_of_mem r hr3))

theorem plain_scrape_content (i : String) :
    CommentScraper.scrape_comment_content (plainCommentNode i) =
      Except.ok (plainEntry i).2 := rfl

theorem plain_get_fresh (ids : List (Option String)) (i : String) (q : Nat)
    (hmem : (some i : Option String) ∉ ids) :
    CommentScraper.get ids (plainCommentNode i) q =
      (if (ids ++ [some i]).length = q then
        Except.ok ([(some i, (plainEntry i).2)], false, ids ++ [some i])
      else
        Except.ok ([(some i, (plainEntry i).2)], true, ids ++ [some i])) := by
  have hth : (plainCommentNode i).thingid = some i := rfl
  have hbtn : (plainCommentNode i).hasMoreButton = false := rfl
  simp only [CommentScraper.get, plain_scrape_content, hth, hbtn, hmem,
    if_false, Bool.false_eq_true]

theorem processSlice_plain (q : Nat) :
    ∀ (names : List String)
      (all : List (Option String × CommentContent))
      (ids : List (Option String)),
      ids.length < q →
      (∀ i ∈ names, (some i : Option String) ∉ ids) →
      names.Nodup →
      q ≤ ids.length + names.length →
      CommentScraper.processSlice q (names.map plainCommentNode) all ids =
        Except.ok (all ++ (names.take (q - ids.length)).map plainEntry,
          ids ++ (names.take (q - ids.length)).map (fun i => some i),
          true) := by
  intro names
  induction names with
  | nil =>
    intro all ids hlen _ _ hge
    exfalso
    simp at hge
    omega
  | cons i rest ih =>
    intro all ids hlen hfresh hnd hge
    have hmem : (some i : Option String) ∉ ids :=
      hfresh i (List.mem_cons_self i rest)
    have hstep :
        CommentScraper.processSlice q ((i :: rest).map plainCommentNode)
            all ids =
          (match CommentScraper.get ids (plainCommentNode i) q with
           | Except.error e => Except.error e
           | Except.ok (sc, cont, ids2) =>
             if cont then
               CommentScraper.processSlice q (rest.map plainCommentNode)
                 (all ++ sc) ids2
             else Except.ok (all ++ sc, ids2, true)) := by
      rw [List.map_cons, CommentScraper.processSlice,
        if_neg (by simp [plainCommentNode])]
    rw [hstep, plain_get_fresh ids i q hmem]
    by_cases hq : (ids ++ [some i]).length = q
    · rw [if_pos hq]
      have hq1 : q - ids.length = 1 := by
        simp only [List.length_append, List.length_cons,
          List.length_nil] at hq
        omega
      show Except.ok (all ++ [(some i, (plainEntry i).2)],
          ids ++ [some i], true) = _
      rw [hq1, List.take_succ_cons, List.take_zero]
      simp [plainEntry]
    · rw [if_neg hq]
      have hlap : (ids ++ [some i]).length = ids.length + 1 := by
        simp
      have hlen2 : (ids ++ [some i]).length < q := by
        omega
      have hfresh2 : ∀ x ∈ rest,
          (some x : Option String) ∉ ids ++ [some i] := by
        intro x hx
        simp only [List.mem_append, List.mem_singleton]
        rintro (h | h)
        · exact hfresh x (List.mem_cons_of_mem i hx) h
        · have hxi : x = i := by
            injection h
          rw [hxi] at hx
          exact (List.nodup_cons.mp hnd).1 hx
      have hnd2 : rest.Nodup := (List.nodup_cons.mp hnd).2
      have hge2 : q ≤ (ids ++ [some i]).length + rest.length := by
        simp only [hlap]
        simp only [List.length_cons] at hge
        omega
      show CommentScraper.processSlice q (rest.map plainCommentNode)
          (all ++ [(some i, (plainEntry i).2)]) (ids ++ [some i]) = _
      rw [ih (all ++ [(some i, (plainEntry i).2)]) (ids ++ [some i])
        hlen2 hfresh2 hnd2 hge2]
      have harith : q - ids.length = (q - (ids ++ [some i]).length) + 1 := by
        simp only [hlap]
        omega
      rw [harith, List.take_succ_cons]
      simp [List.append_assoc, plainEntry]

/-- C2 (amended): provided comment_quota ≥ 1 and the surface's
totalcomments attribute is nonzero whenever top-level comments render,
every run of scrape_comments that returns a tree records at most
comment_quota nodes and never records an identifier twice; and expansion
stops exactly at the quota boundary even mid-sibling-list: on a single
render of distinct plain top-level comments with accurate totalcomments, a
quota q within range yields exactly the first q comments. -/
theorem comment_quota_respected :
    (∀ (s : CommentSurface) (q : Nat), 1 ≤ q →
      (∀ ts, s.tree = some ts → ts.totalcomments = 0 →
        ∀ r ∈ ts.renders, ∀ c ∈ r, c.depth ≠ some strZero) →
      ∀ l, CommentScraper.scrape_comments s q = Except.ok l →
        l.length ≤ q ∧ (l.map Prod.fst).Nodup) ∧
    (∀ (names : List String) (q : Nat), names.Nodup → 1 ≤ q →
      q ≤ names.length →
      CommentScraper.scrape_comments (plainSurface names) q =
        Except.ok ((names.take q).map plainEntry)) := by
  constructor
  · intro s q hq hcons l hok
    unfold CommentScraper.scrape_comments at hok
    cases hs : s.tree with
    | none =>
      rw [hs] at hok
      cases hok
      simp
    | some ts =>
      rw [hs] at hok
      have hok2 : CommentScraper.scrapeGo
          (if ts.totalcomments < q then ts.totalcomments else q)
          ts.renders [] [] = Except.ok l := hok
      by_cases h0 : ts.totalcomments = 0
      · have hskip := scrapeGo_skip
          (if ts.totalcomments < q then ts.totalcomments else q)
          ts.renders [] [] (hcons ts hs h0)
        rw [hskip] at hok2
        cases hok2
        simp
      · have hlim1 : 1 ≤ (if ts.totalcomments < q then ts.totalcomments
            else q) := by
          by_cases hc : ts.totalcomments < q
          · rw [if_pos hc]
            omega
          · rw [if_neg hc]
            exact hq
        have hspec := scrapeGo_spec
          (if ts.totalcomments < q then ts.totalcomments else q)
          ts.renders [] [] rfl (by simp; omega) List.nodup_nil l hok2
        refine ⟨?_, hspec.2⟩
        have hle : (if ts.totalcomments < q then ts.totalcomments else q)
            ≤ q := by
          by_cases hc : ts.totalcomments < q
          · rw [if_pos hc]
            omega
          · rw [if_neg hc]
        omega
  · intro names q hnd hq hle
    unfold CommentScraper.scrape_comments
    show CommentScraper.scrapeGo
        (if names.length < q then names.length else q)
        [names.map plainCommentNode] [] [] = _
    rw [if_neg (by omega)]
    rw [CommentScraper.scrapeGo]
    rw [show (List.map plainCommentNode names).drop
        ([] : List (Option String × CommentContent)).length =
        List.map plainCommentNode names by simp]
    rw [processSlice_plain q names [] [] (by simp; omega) (by simp) hnd
      (by simp; omega)]
    simp

/-- Witness for C2's amended theorem: three plain comments under quota 2
yield exactly the first two entries, and the run satisfies the bound and
distinctness. -/
theorem comment_quota_respected_witness :
    CommentScraper.scrape_comments (plainSurface [("c1"), ("c2"), ("c3")]) 2 =
      Except.ok [plainEntry ("c1"), plainEntry ("c2")] := by
  have h := comment_quota_respected.2 [("c1"), ("c2"), ("c3")] 2
    (by decide) (by omega) (by decide)
  rw [h]
  rfl

/-- C2 counterexample: with comment_quota = 0 and a single rendered
top-level comment, the quota equality check only fires after a node has
been recorded, so the returned tree holds one node — more than the
quota. -/
theorem comment_quota_zero_counterexample :
    CommentScraper.scrape_comments (plainSurface [("c1")]) 0 =
      Except.ok [plainEntry ("c1")] ∧
    ¬(∀ l, CommentScraper.scrape_comments (plainSurface [("c1")]) 0 =
        Except.ok l → l.length ≤ 0) := by
  constructor
  · rfl
  · intro h
    have hx := h [plainEntry ("c1")] rfl
    simp at hx

theorem scrape_content_expanded (c : CommentNode) (t : String)
    (h1 : c.collapsed = some strFalse) (hrt : c.rtjsonText = some t) :
    CommentScraper.scrape_comment_content c =
      Except.ok (CommentScraper.mkCommentContent c t) := by
  unfold CommentScraper.scrape_comment_content
  rw [if_pos h1, hrt]

theorem scrape_content_collapsed (c : CommentNode) (raw : String)
    (h1 : ¬ c.collapsed = some strFalse) (hraw : c.rawInnerText = some raw) :
    CommentScraper.scrape_comment_content c =
      Except.ok (CommentScraper.mkCommentContent c (pyStrip raw)) := by
  unfold CommentScraper.scrape_comment_content
  rw [if_neg h1, hraw]

/-- C6 counterexample: two comment nodes identical except for the
`collapsed` attribute — with differing rich-text and raw innerText DOM
sources — yield different extracted content: the extraction path branches
on the collapsed state. -/
theorem comment_text_collapsed_counterexample :
    c6NodeExpanded.rtjsonText =
      ({ c6NodeExpanded with collapsed := some ("true") }).rtjsonText ∧
    c6NodeExpanded.rawInnerText =
      ({ c6NodeExpanded with collapsed := some ("true") }).rawInnerText ∧
    CommentScraper.scrape_comment_content c6NodeExpanded ≠
      CommentScraper.scrape_comment_content
        { c6NodeExpanded with collapsed := some ("true") } := by
  refine ⟨rfl, rfl, ?_⟩
  intro h
  have h1 : CommentScraper.scrape_comment_content c6NodeExpanded =
      Except.ok (CommentScraper.mkCommentContent c6NodeExpanded
        ("rich text")) := rfl
  have h2 : CommentScraper.scrape_comment_content
      { c6NodeExpanded with collapsed := some ("true") } =
      Except.ok (CommentScraper.mkCommentContent c6NodeExpanded
        ("raw text")) := rfl
  rw [h1, h2] at h
  simp only [Except.ok.injEq] at h
  have hc := congrArg CommentContent.content h
  simp only [CommentScraper.mkCommentContent] at hc
  rw [show ("rich text").isEmpty = false from rfl,
    show ("raw text").isEmpty = false from rfl] at hc
  simp at hc

/-- C6 (amended): text is extracted in both states — collapsed nodes
through the raw innerText path, expanded ones through the rich-text
element — and flipping only the collapsed attribute yields identical
content whenever the two DOM text sources agree. -/
theorem comment_text_both_states (c : CommentNode) (col2 : Option String)
    (t raw : String)
    (hrt : c.rtjsonText = some t)
    (hraw : c.rawInnerText = some raw)
    (hagree : pyStrip raw = t) :
    ∃ content, CommentScraper.scrape_comment_content c = Except.ok content ∧
      CommentScraper.scrape_comment_content { c with collapsed := col2 } =
        Except.ok content := by
  have hmk : CommentScraper.mkCommentContent { c with collapsed := col2 } t
      = CommentScraper.mkCommentContent c t := rfl
  refine ⟨CommentScraper.mkCommentContent c t, ?_, ?_⟩
  · by_cases h1 : c.collapsed = some strFalse
    · exact scrape_content_expanded c t h1 hrt
    · rw [scrape_content_collapsed c raw h1 hraw, hagree]
  · by_cases h2 : ({ c with collapsed := col2 } : CommentNode).collapsed
        = some strFalse
    · rw [scrape_content_expanded { c with collapsed := col2 } t h2 hrt,
        hmk]
    · rw [scrape_content_collapsed { c with collapsed := col2 } raw h2 hraw,
        hagree, hmk]

/-- Witness for C6's amended theorem: a plain node with agreeing text
sources extracts the same content expanded and collapsed. -/
theorem comment_text_both_states_witness :
    ∃ content,
      CommentScraper.scrape_comment_content (plainCommentNode ("t9")) =
        Except.ok content ∧
      CommentScraper.scrape_comment_content
        { plainCommentNode ("t9") with collapsed := some ("true") } =
        Except.ok content :=
  comment_text_both_states (plainCommentNode ("t9")) (some ("true"))
    ("hello") (" hello ") rfl rfl rfl

theorem galleryUrlsGo_success :
    ∀ (imgs : List GalleryImg) (acc : List (String × String)),
      (∀ img ∈ imgs, ∃ src name, img.src = some src ∧
        mediaMatches src = true ∧ nameExtract src = some name) →
      ∃ urls, MediaScraper.galleryUrlsGo imgs acc = Except.ok urls ∧
        urls.length = acc.length + imgs.length ∧
        ∀ u ∈ urls, u ∈ acc ∨ ∃ img ∈ imgs, img.src = some u.1 := by
  intro imgs
  induction imgs with
  | nil =>
    intro acc _
    exact ⟨acc, rfl, by simp, fun u hu => Or.inl hu⟩
  | cons img rest ih =>
    intro acc h
    obtain ⟨src, name, hsrc, hmedia, hname⟩ :=
      h img (List.mem_cons_self img rest)
    have hrest : ∀ i2 ∈ rest, ∃ src name, i2.src = some src ∧
        mediaMatches src = true ∧ nameExtract src = some name :=
      fun i2 hi2 => h i2 (List.mem_cons_of_mem img hi2)
    obtain ⟨urls, hurls, hlen, hmem⟩ := ih (acc ++ [(src, name)]) hrest
    refine ⟨urls, ?_, ?_, ?_⟩
    · calc MediaScraper.galleryUrlsGo (img :: rest) acc
          = (if mediaMatches src = true then
               match nameExtract src with
               | none => Except.error PyErr.attributeError
               | some nm =>
                 MediaScraper.galleryUrlsGo rest (acc ++ [(src, nm)])
             else MediaScraper.galleryUrlsGo rest acc) := by
            rw [MediaScraper.galleryUrlsGo, hsrc]
        _ = MediaScraper.galleryUrlsGo rest (acc ++ [(src, name)]) := by
            rw [if_pos hmedia, hname]
        _ = Except.ok urls := hurls
    · rw [hlen]
      simp
      omega
    · intro u hu
      rcases hmem u hu with hacc | ⟨i2, hi2, hs2⟩
      · rcases List.mem_append.mp hacc with h1 | h1
        · exact Or.inl h1
        · refine Or.inr ⟨img, List.mem_cons_self img rest, ?_⟩
          have hup : u = (src, name) := by
            simpa using h1
          rw [hup, hsrc]
      · exact Or.inr ⟨i2, List.mem_cons_of_mem img hi2, hs2⟩

theorem downloadGo_success (env : MediaEnv) (path : String) :
    ∀ (urls : List (String × String)) (paths : List String)
      (ops : List FsOp),
      (∀ u ∈ urls, ∃ res ext, env.fetchResult u.1 = some res ∧
        guessExt res.contentType = some ext) →
      (MediaScraper.downloadGo env path urls paths ops).1.length =
          paths.length + urls.length ∧
      (MediaScraper.downloadGo env path urls paths ops).2.length =
          ops.length + urls.length := by
  intro urls
  induction urls with
  | nil =>
    intro paths ops _
    simp [MediaScraper.downloadGo]
  | cons u rest ih =>
    intro paths ops h
    obtain ⟨res, ext, hres, hext⟩ := h u (List.mem_cons_self u rest)
    have hsave : MediaScraper.save res path u.2 =
        Except.ok (path ++ ("/") ++ u.2 ++ ext,
          FsOp.writeFile (path ++ ("/") ++ u.2 ++ ext)) := by
      unfold MediaScraper.save
      rw [hext]
    have hrest := ih (paths ++ [path ++ ("/") ++ u.2 ++ ext])
      (ops ++ [FsOp.writeFile (path ++ ("/") ++ u.2 ++ ext)])
      (fun u2 hu2 => h u2 (List.mem_cons_of_mem u hu2))
    have hstep : MediaScraper.downloadGo env path (u :: rest) paths ops =
        MediaScraper.downloadGo env path rest
          (paths ++ [path ++ ("/") ++ u.2 ++ ext])
          (ops ++ [FsOp.writeFile (path ++ ("/") ++ u.2 ++ ext)]) := by
      calc MediaScraper.downloadGo env path (u :: rest) paths ops
          = (match MediaScraper.save res path u.2 with
             | Except.error _ =>
               MediaScraper.downloadGo env path rest paths ops
             | Except.ok pr => MediaScraper.downloadGo env path rest
                 (paths ++ [pr.1]) (ops ++ [pr.2])) := by
            rw [MediaScraper.downloadGo, hres]
        _ = _ := by rw [hsave]
    rw [hstep]
    constructor
    · rw [hrest.1]
      simp only [List.length_append, List.length_cons, List.length_nil]
      omega
    · rw [hrest.2]
      simp only [List.length_append, List.length_cons, List.length_nil]
      omega

theorem downloadGo_allfail (env : MediaEnv) (path : String) :
    ∀ (urls : List (String × String)) (paths : List String)
      (ops : List FsOp),
      (∀ u ∈ urls, env.fetchResult u.1 = none ∨
        (∃ res, env.fetchResult u.1 = some res ∧
          guessExt res.contentType = none)) →
      MediaScraper.downloadGo env path urls paths ops = (paths, ops) := by
  intro urls
  induction urls with
  | nil => intro paths ops _; rfl
  | cons u rest ih =>
    intro paths ops h
    have hrest := ih paths ops
      (fun u2 hu2 => h u2 (List.mem_cons_of_mem u hu2))
    rcases h u (List.mem_cons_self u rest) with hf | ⟨res, hres, hext⟩
    · rw [MediaScraper.downloadGo, hf]
      exact hrest
    · have hsave : MediaScraper.save res path u.2 =
          Except.error PyErr.typeError := by
        unfold MediaScraper.save
        rw [hext]
      have h1 : MediaScraper.downloadGo env path (u :: rest) paths ops =
          (match MediaScraper.save res path u.2 with
           | Except.error _ =>
             MediaScraper.downloadGo env path rest paths ops
           | Except.ok pr => MediaScraper.downloadGo env path rest
               (paths ++ [pr.1]) (ops ++ [pr.2])) := by
        rw [MediaScraper.downloadGo, hres]
      rw [h1, hsave]
      exact hrest

theorem download_media_eq (env : MediaEnv) (href id dir : String)
    (u : String × String) (us : List (String × String))
    (hmu : MediaScraper.get_media_urls env href id =
      Except.ok (some (u :: us))) :
    MediaScraper.download_media env href id dir =
      Except.ok
        ((if (MediaScraper.downloadGo env (dir ++ ("/") ++ id)
              (u :: us) [] []).1.isEmpty then none
          else some (MediaScraper.downloadGo env (dir ++ ("/") ++ id)
            (u :: us) [] []).1),
         FsOp.mkdir (dir ++ ("/") ++ id) ::
           (MediaScraper.downloadGo env (dir ++ ("/") ++ id)
             (u :: us) [] []).2) := by
  unfold MediaScraper.download_media
  rw [hmu]

/-- C8: classification and effects of download_media — a gallery reference
(carousel present, every image node carrying a valid, nameable source and
a fetchable, saveable response) yields exactly one saved file per gallery
image node under the per-item directory; a direct image-extension
reference with a successful fetch yields exactly one saved file; a
reference matching neither pattern yields None with zero filesystem
effects (no directory created, no file written). -/
theorem media_resolution_shapes :
    (∀ (env : MediaEnv) (href id dir : String) (imgs : List GalleryImg),
      galleryMatches href = true →
      env.carousel = some imgs →
      imgs ≠ [] →
      (∀ img ∈ imgs, ∃ src name, img.src = some src ∧
        mediaMatches src = true ∧ nameExtract src = some name ∧
        ∃ res ext, env.fetchResult src = some res ∧
          guessExt res.contentType = some ext) →
      ∃ paths ops, MediaScraper.download_media env href id dir =
          Except.ok (some paths, FsOp.mkdir (dir ++ ("/") ++ id) :: ops) ∧
        paths.length = imgs.length ∧ ops.length = imgs.length) ∧
    (∀ (env : MediaEnv) (href id dir : String),
      galleryMatches href = false →
      mediaMatches href = true →
      (∃ res ext, env.fetchResult href = some res ∧
        guessExt res.contentType = some ext) →
      ∃ p, MediaScraper.download_media env href id dir =
        Except.ok (some [p],
          [FsOp.mkdir (dir ++ ("/") ++ id), FsOp.writeFile p])) ∧
    (∀ (env : MediaEnv) (href id dir : String),
      galleryMatches href = false →
      mediaMatches href = false →
      MediaScraper.download_media env href id dir =
        Except.ok (none, [])) := by
  refine ⟨?_, ?_, ?_⟩
  · intro env href id dir imgs hg hcar hne h
    have hvalid : ∀ img ∈ imgs, ∃ src name, img.src = some src ∧
        mediaMatches src = true ∧ nameExtract src = some name := by
      intro img himg
      obtain ⟨src, name, h1, h2, h3, _⟩ := h img himg
      exact ⟨src, name, h1, h2, h3⟩
    obtain ⟨urls, hurls, hlen, hmem⟩ := galleryUrlsGo_success imgs [] hvalid
    have hfetch : ∀ u ∈ urls, ∃ res ext,
        env.fetchResult u.1 = some res ∧
        guessExt res.contentType = some ext := by
      intro u hu
      rcases hmem u hu with hin | ⟨img, himg, hs⟩
      · cases hin
      · obtain ⟨src, name, h1, _, _, res, ext, h4, h5⟩ := h img himg
        rw [h1] at hs
        have hsu : src = u.1 := by
          injection hs
        rw [← hsu]
        exact ⟨res, ext, h4, h5⟩
    have hmu : MediaScraper.get_media_urls env href id =
        Except.ok (some urls) := by
      unfold MediaScraper.get_media_urls MediaScraper.get_gallery_urls
      rw [if_pos hg, hcar]
      show (match MediaScraper.galleryUrlsGo imgs [] with
            | Except.error e => Except.error e
            | Except.ok urls2 => Except.ok (some urls2)) = _
      rw [hurls]
    simp only [List.length_nil, Nat.zero_add] at hlen
    cases hurls2 : urls with
    | nil =>
      exfalso
      rw [hurls2] at hlen
      simp at hlen
      exact hne (List.length_eq_zero.mp hlen.symm)
    | cons u us =>
      rw [hurls2] at hfetch hlen hmu
      have hdl := downloadGo_success env (dir ++ ("/") ++ id)
        (u :: us) [] [] hfetch
      have hnonempty : (MediaScraper.downloadGo env
          (dir ++ ("/") ++ id) (u :: us) [] []).1.isEmpty = false := by
        have hx := hdl.1
        cases hl : (MediaScraper.downloadGo env (dir ++ ("/") ++ id)
            (u :: us) [] []).1 with
        | nil =>
          rw [hl] at hx
          simp at hx
        | cons p ps => rfl
      have hcond : ¬ ((MediaScraper.downloadGo env (dir ++ ("/") ++ id)
          (u :: us) [] []).1.isEmpty = true) := by
        rw [hnonempty]
        simp
      refine ⟨(MediaScraper.downloadGo env (dir ++ ("/") ++ id)
          (u :: us) [] []).1,
        (MediaScraper.downloadGo env (dir ++ ("/") ++ id)
          (u :: us) [] []).2, ?_, ?_, ?_⟩
      · rw [download_media_eq env href id dir u us hmu, if_neg hcond]
      · rw [hdl.1]
        simp only [List.length_cons] at hlen
        simp only [List.length_nil, List.length_cons, Nat.zero_add]
        omega
      · rw [hdl.2]
        simp only [List.length_cons] at hlen
        simp only [List.length_nil, List.length_cons, Nat.zero_add]
        omega
  · intro env href id dir hg hm ⟨res, ext, hres, hext⟩
    have hmu : MediaScraper.get_media_urls env href id =
        Except.ok (some [(href, id)]) := by
      unfold MediaScraper.get_media_urls
      rw [if_neg (by rw [hg]; simp), if_pos hm]
    have hsave : MediaScraper.save res (dir ++ ("/") ++ id) id =
        Except.ok ((dir ++ ("/") ++ id) ++ ("/") ++ id ++ ext,
          FsOp.writeFile ((dir ++ ("/") ++ id) ++ ("/") ++ id ++ ext)) := by
      unfold MediaScraper.save
      rw [hext]
    have hdg : MediaScraper.downloadGo env (dir ++ ("/") ++ id)
        [(href, id)] [] [] =
        ([(dir ++ ("/") ++ id) ++ ("/") ++ id ++ ext],
         [FsOp.writeFile ((dir ++ ("/") ++ id) ++ ("/") ++ id ++ ext)]) := by
      show (match env.fetchResult href with
            | none => MediaScraper.downloadGo env (dir ++ ("/") ++ id) [] [] []
            | some res2 =>
              match MediaScraper.save res2 (dir ++ ("/") ++ id) id with
              | Except.error _ =>
                MediaScraper.downloadGo env (dir ++ ("/") ++ id) [] [] []
              | Except.ok pr =>
                MediaScraper.downloadGo env (dir ++ ("/") ++ id)
                  [] [pr.1] [pr.2]) = _
      rw [hres]
      show (match MediaScraper.save res (dir ++ ("/") ++ id) id with
            | Except.error _ =>
              MediaScraper.downloadGo env (dir ++ ("/") ++ id) [] [] []
            | Except.ok pr =>
              MediaScraper.downloadGo env (dir ++ ("/") ++ id)
                [] [pr.1] [pr.2]) = _
      rw [hsave]
      rfl
    refine ⟨(dir ++ ("/") ++ id) ++ ("/") ++ id ++ ext, ?_⟩
    unfold MediaScraper.download_media
    rw [hmu]
    show Except.ok (_, _) = _
    rw [hdg]
    rfl
  · intro env href id dir hg hm
    unfold MediaScraper.download_media MediaScraper.get_media_urls
    rw [if_neg (by rw [hg]; simp), if_neg (by rw [hm]; simp)]

/-- Witness for C8: the three-image gallery yields three saved files under
media/p1, a direct .jpg reference yields one, and a non-matching page URL
yields None with no filesystem effect. -/
theorem media_resolution_shapes_witness :
    (∃ paths ops, MediaScraper.download_media wEnv
        ("https://www.reddit.com/gallery/abc") ("p1") ("media") =
        Except.ok (some paths,
          FsOp.mkdir (("media") ++ ("/") ++ ("p1")) :: ops) ∧
      paths.length = 3 ∧ ops.length = 3) ∧
    (∃ p, MediaScraper.download_media wEnv (wSrc ("z")) ("p1") ("media") =
      Except.ok (some [p],
        [FsOp.mkdir (("media") ++ ("/") ++ ("p1")), FsOp.writeFile p])) ∧
    MediaScraper.download_media wEnv ("https://example.com/page")
      ("p1") ("media") = Except.ok (none, []) := by
  have hv : ∀ img ∈ wImgs, ∃ src name, img.src = some src ∧
      mediaMatches src = true ∧ nameExtract src = some name ∧
      ∃ res ext, wEnv.fetchResult src = some res ∧
        guessExt res.contentType = some ext := by
    intro img himg
    simp only [wImgs, List.mem_cons, List.not_mem_nil, or_false] at himg
    rcases himg with h | h | h
    · exact ⟨wSrc ("a"), ("a"), by rw [h], by decide, by decide,
        ⟨("image/jpeg")⟩, (".jpg"), rfl, rfl⟩
    · exact ⟨wSrc ("b"), ("b"), by rw [h], by decide, by decide,
        ⟨("image/jpeg")⟩, (".jpg"), rfl, rfl⟩
    · exact ⟨wSrc ("c"), ("c"), by rw [h], by decide, by decide,
        ⟨("image/jpeg")⟩, (".jpg"), rfl, rfl⟩
  refine ⟨?_, ?_, ?_⟩
  · obtain ⟨paths, ops, h1, h2, h3⟩ := media_resolution_shapes.1 wEnv
      ("https://www.reddit.com/gallery/abc") ("p1") ("media") wImgs
      (by decide) rfl (by decide) hv
    exact ⟨paths, ops, h1, by rw [h2]; rfl, by rw [h3]; rfl⟩
  · exact media_resolution_shapes.2.1 wEnv (wSrc ("z")) ("p1") ("media")
      (by decide) (by decide) ⟨⟨("image/jpeg")⟩, (".jpg"), rfl, rfl⟩
  · exact media_resolution_shapes.2.2 wEnv ("https://example.com/page")
      ("p1") ("media") (by decide) (by decide)

/-- C10: when media URLs were resolved (a nonempty list) but every asset
fetch or save fails, download_media returns None for the paths — the same
None a reference resolving no media yields, so the caller cannot tell
"post had no media" from "all resolved media failed to download" (only the
silently created, empty per-item directory differs). -/
theorem media_all_failed_none (env env2 : MediaEnv)
    (href id dir href2 : String) (u : String × String)
    (us : List (String × String))
    (hurls : MediaScraper.get_media_urls env href id =
      Except.ok (some (u :: us)))
    (hfail : ∀ u2 ∈ u :: us, env.fetchResult u2.1 = none ∨
      (∃ res, env.fetchResult u2.1 = some res ∧
        guessExt res.contentType = none))
    (hg : galleryMatches href2 = false)
    (hm : mediaMatches href2 = false) :
    MediaScraper.download_media env href id dir =
      Except.ok (none, [FsOp.mkdir (dir ++ ("/") ++ id)]) ∧
    MediaScraper.download_media env2 href2 id dir =
      Except.ok (none, []) := by
  constructor
  · rw [download_media_eq env href id dir u us hurls,
      downloadGo_allfail env (dir ++ ("/") ++ id) (u :: us) [] [] hfail]
    rfl
  · unfold MediaScraper.download_media MediaScraper.get_media_urls
    rw [if_neg (by rw [hg]; simp), if_neg (by rw [hm]; simp)]

/-- Witness for C10: the failing environment resolves the gallery's three
URLs yet returns None, exactly like the no-media reference. -/
theorem media_all_failed_none_witness :
    MediaScraper.download_media wEnvFail
      ("https://www.reddit.com/gallery/abc") ("p1") ("media") =
      Except.ok (none, [FsOp.mkdir (("media") ++ ("/") ++ ("p1"))]) ∧
    MediaScraper.download_media wEnvFail ("https://example.com/page")
      ("p1") ("media") = Except.ok (none, []) :=
  media_all_failed_none wEnvFail wEnvFail
    ("https://www.reddit.com/gallery/abc") ("p1") ("media")
    ("https://example.com/page")
    (wSrc ("a"), ("a")) [(wSrc ("b"), ("b")), (wSrc ("c"), ("c"))]
    rfl
    (by intro u2 _; exact Or.inl rfl)
    (by decide) (by decide)

/-- C7: evaluation of get_post at the failing input.  A stale feed element
whose attribute read raises makes the except clause prepare the None
failure marker, but the finally clause reads the never-assigned local
`driver` and UnboundLocalError escapes instead of the marker, aborting the
executor batch — contradicting the docstring ("None if an error occurs")
and the claim.  A failure after the driver is bound (here: navigation)
does produce the per-item None marker. -/
theorem get_post_stale_aborts :
    get_post envHappy stalePost 0 ("") = Except.error PyErr.unboundLocal ∧
    get_post envHappy goodPost 0 ("") =
      Except.ok (some ⟨goodTag,
        ("https://www.reddit.com/r/test/comments/1/x/"),
        some ("body"), none, none⟩) ∧
    get_post envLateFail goodPost 0 ("") = Except.ok none := by
  refine ⟨rfl, rfl, rfl⟩

/-- Bridge between the executable prefix test and the prefix relation. -/
theorem isPrefixOf_eq (l1 l2 : List Char) :
    l1.isPrefixOf l2 = true ↔ l1 <+: l2 :=
  List.isPrefixOf_iff_prefix

/-- searchSubstr is exactly literal-substring containment. -/
theorem searchSubstr_iff (pat s : List Char) :
    searchSubstr pat s = true ↔ pat <:+: s := by
  unfold searchSubstr
  rw [List.any_eq_true]
  constructor
  · rintro ⟨t, ht, hpf⟩
    rw [List.mem_tails] at ht
    exact List.infix_iff_prefix_suffix.mpr
      ⟨t, (isPrefixOf_eq _ _).mp hpf, ht⟩
  · intro hinf
    obtain ⟨t, hpf, hsf⟩ := List.infix_iff_prefix_suffix.mp hinf
    exact ⟨t, (List.mem_tails _ _).mpr hsf, (isPrefixOf_eq _ _).mpr hpf⟩

/-- The executable tail test is exactly the declarative tail grammar. -/
theorem tailMatch_iff (t : List Char) :
    tailMatch t = true ↔ SubredditTail t := by
  unfold tailMatch SubredditTail
  simp [List.any_eq_true]

/-- The executable path test is exactly the declarative path grammar. -/
theorem subredditPathMatch_iff (s : String) :
    subredditPathMatch s.toList = true ↔ SubredditPathGrammar s := by
  unfold subredditPathMatch SubredditPathGrammar
  rw [Bool.and_eq_true, List.any_eq_true]
  constructor
  · rintro ⟨hpre, k, hk, hcond⟩
    rw [List.mem_range'_1] at hk
    rw [Bool.and_eq_true, Bool.and_eq_true, decide_eq_true_eq,
      List.all_eq_true] at hcond
    obtain ⟨⟨hkle, hall⟩, htail⟩ := hcond
    obtain ⟨rest, hrest⟩ := (isPrefixOf_eq _ _).mp hpre
    have hdrop : s.toList.drop 3 = rest := by
      rw [← hrest]; exact List.drop_left' (by rfl)
    rw [hdrop] at hkle hall htail
    refine ⟨rest.take k, rest.drop k, ?_, ?_, ?_, ?_, ?_⟩
    · rw [List.append_assoc, List.take_append_drop, hrest]
    · rw [List.length_take]; omega
    · rw [List.length_take]; omega
    · exact hall
    · exact (tailMatch_iff _).mp htail
  · rintro ⟨name, tail, hp, h3, h21, hw, ht⟩
    have hdrop : s.toList.drop 3 = name ++ tail := by
      rw [hp, List.append_assoc]; exact List.drop_left' (by rfl)
    constructor
    · exact (isPrefixOf_eq _ _).mpr
        ⟨name ++ tail, by rw [List.append_assoc] at hp; exact hp.symm⟩
    · refine ⟨name.length, List.mem_range'_1.mpr ⟨h3, by omega⟩, ?_⟩
      rw [Bool.and_eq_true, Bool.and_eq_true, decide_eq_true_eq,
        List.all_eq_true, hdrop]
      refine ⟨⟨by rw [List.length_append]; omega, ?_⟩, ?_⟩
      · rw [List.take_left]; exact hw
      · rw [List.drop_left]; exact (tailMatch_iff _).mpr ht

/-- C9: counterexample.  validate_reddit_url checks the netloc with an
unanchored re.search, so a URL whose host merely CONTAINS www.reddit.com
as a substring — here www.reddit.com.evil.example — is accepted and
returned unchanged, although it is not a reddit feed root URL (its parsed
host is not www.reddit.com). -/
theorem validate_reddit_url_counterexample :
    validate_reddit_url evilUrl = Except.ok evilUrl ∧
      ¬ IsRedditFeedRootUrl evilUrl := by
  refine ⟨rfl, ?_⟩
  rintro ⟨parts, hp, hn, _⟩
  rw [show pyUrlparse evilUrl = Except.ok
      ⟨("https"), ("www.reddit.com.evil.example"), ("/r/abc")⟩ from rfl] at hp
  injection hp with hp
  subst hp
  simp at hn

/-- C9: amended characterization.  validate_reddit_url accepts a URL and
returns it unchanged exactly when urlparse succeeds on it, the literal
www.reddit.com occurs somewhere in the parsed netloc (an unanchored
substring search, not an exact host check), and the parsed path is in the
subreddit grammar /r/ + 3..21 word characters + optional sort-mode
segment hot|new|top|rising + optional trailing slash; every other URL
produces a descriptive error. -/
theorem validate_reddit_url_characterization (url : String) :
    validate_reddit_url url = Except.ok url ↔
      ∃ parts, pyUrlparse url = Except.ok parts ∧
        redditNetlocLit <:+: parts.netloc.toList ∧
        SubredditPathGrammar parts.path := by
  constructor
  · intro h
    unfold validate_reddit_url at h
    split at h
    · simp at h
    · rename_i parts hp
      split at h
      · simp at h
      · rename_i hn
        split at h
        · simp at h
        · rename_i hm
          refine ⟨parts, hp, ?_, ?_⟩
          · refine (searchSubstr_iff _ _).mp ?_
            cases hc : searchSubstr redditNetlocLit parts.netloc.toList with
            | false => exact absurd hc hn
            | true => rfl
          · refine (subredditPathMatch_iff _).mp ?_
            cases hc : subredditPathMatch parts.path.toList with
            | false => exact absurd hc hm
            | true => rfl
  · rintro ⟨parts, hp, hinf, hgram⟩
    have hs : searchSubstr redditNetlocLit parts.netloc.toList = true :=
      (searchSubstr_iff _ _).mpr hinf
    have hm : subredditPathMatch parts.path.toList = true :=
      (subredditPathMatch_iff _).mpr hgram
    unfold validate_reddit_url
    rw [hp]
    show (if searchSubstr redditNetlocLit parts.netloc.toList = false then
        Except.error errNotReddit
      else if subredditPathMatch parts.path.toList = false then
        Except.error errBadPath
      else Except.ok url) = Except.ok url
    rw [hs, hm]
    simp

/-- C9 witness: a canonical subreddit hot-feed URL is accepted via the
characterization. -/
theorem validate_reddit_url_characterization_witness :
    validate_reddit_url ("https://www.reddit.com/r/NovaScotia/hot") =
      Except.ok ("https://www.reddit.com/r/NovaScotia/hot") := by
  refine (validate_reddit_url_characterization _).mpr
    ⟨⟨("https"), ("www.reddit.com"), ("/r/NovaScotia/hot")⟩, rfl, ?_, ?_⟩
  · exact ⟨[], [], by simp [redditNetlocLit]⟩
  · refine ⟨("NovaScotia").toList, ("/hot").toList, by decide, by decide,
      by decide, by decide, ?_⟩
    exact Or.inr (Or.inr ⟨("hot").toList, by decide, Or.inl (by decide)⟩)

end RedditScraper
